import Mathlib

set_option linter.unusedVariables false

/-!
Verification of the fl-bot order-ingest service against its natural-language
specification.  The Python sources under `app/` are shallowly embedded as Lean
definitions: Python dictionaries become association lists, the database session
becomes an explicit list-of-rows state, byte streams become lists of chunk
events, and heap mutation (for the frame property of `deep_merge_dicts`)
becomes an explicit address-indexed store.
-/

/-! ## JSON values (`dict[str, Any]` payloads)

`app/services/orders.py` manipulates arbitrary JSON-like payloads.  We model
them as a mutual inductive family so that all recursions stay structural:
`JObj` is a Python `dict` (an insertion-ordered association list with unique
keys — uniqueness is expressed by the well-formedness predicate `dwf` below),
`JArr` a Python `list`.
-/

mutual

inductive JValue where
  | obj : JObj → JValue
  | arr : JArr → JValue
  | str : String → JValue
  | num : Int → JValue
  | bool : Bool → JValue
  | null : JValue
deriving DecidableEq, Repr

inductive JObj where
  | nil : JObj
  | cons : String → JValue → JObj → JObj
deriving DecidableEq, Repr

inductive JArr where
  | nil : JArr
  | cons : JValue → JArr → JArr
deriving DecidableEq, Repr

end

/-- `d[k]` / `k in d`: first binding of `k` in the dict (Python dicts have
unique keys, so "first" is exact). -/
def JObj.lookup : JObj → String → Option JValue
  | .nil, _ => none
  | .cons k v rest, key => if k = key then some v else rest.lookup key

/-- `d[k] = v`: replace the first binding of `k`, or append a new one
(matching Python dict assignment, which preserves insertion order). -/
def JObj.set : JObj → String → JValue → JObj
  | .nil, key, v => .cons key v .nil
  | .cons k w rest, key, v =>
      if k = key then .cons key v rest else .cons k w (rest.set key v)

/-- `k in d` as a Bool. -/
def JObj.hasKey (d : JObj) (key : String) : Bool :=
  (d.lookup key).isSome

mutual

/-- Well-formedness of a JSON value: every object reachable inside it has
unique keys (always true of real Python dicts). -/
def jwf : JValue → Bool
  | .obj d => dwf d
  | .arr a => awf a
  | _ => true

/-- Well-formedness of an object: keys are distinct and values well formed. -/
def dwf : JObj → Bool
  | .nil => true
  | .cons k v rest => !rest.hasKey k && jwf v && dwf rest

/-- Well-formedness of an array. -/
def awf : JArr → Bool
  | .nil => true
  | .cons v rest => jwf v && awf rest

end

mutual

/-- `deep_merge_dicts` (app/services/orders.py lines 17-24).

    result = deepcopy(base) if base else {}
    for key, value in incoming.items():
        if key in result and isinstance(result[key], dict) and isinstance(value, dict):
            result[key] = deep_merge_dicts(result[key], value)
        else:
            result[key] = value
    return result

In the pure model `deepcopy` is the identity and an empty `base` already is
`{}`, so `result` starts as `base`; the loop walks `incoming` threading the
accumulating `result`. -/
def deep_merge_dicts : JObj → JObj → JObj
  | result, .nil => result
  | result, .cons k v rest => deep_merge_dicts (mergeEntry result k v) rest

/-- One iteration of the `for key, value in incoming.items()` loop body. -/
def mergeEntry (result : JObj) (k : String) (v : JValue) : JObj :=
  match result.lookup k, v with
  | some (.obj bb), .obj vv => result.set k (.obj (deep_merge_dicts bb vv))
  | _, _ => result.set k v

end

/-- The value stored for a key taken from `incoming`: recursive merge when both
sides hold objects, wholesale replacement otherwise. -/
def mergeValue (bk : Option JValue) (v : JValue) : JValue :=
  match bk, v with
  | some (.obj bb), .obj vv => .obj (deep_merge_dicts bb vv)
  | _, _ => v

/-- Per-key result of the merge, phrased directly from the spec sentence:
a key absent from the incoming mapping keeps the stored value; a key present
in both with mapping values on both sides is merged recursively; otherwise the
incoming value replaces the stored value. -/
def mergeSpecLookup (bk : Option JValue) (pk : Option JValue) : Option JValue :=
  match pk with
  | none => bk
  | some v => some (mergeValue bk v)

/-- Spine-only induction for `JObj` (values are left opaque), usable by the
`induction` tactic in place of the multi-motive mutual recursor. -/
@[induction_eliminator]
theorem JObj.indSpine {motive : JObj → Prop} (nil : motive .nil)
    (cons : ∀ (k : String) (v : JValue) (rest : JObj),
      motive rest → motive (.cons k v rest)) :
    ∀ d, motive d
  | .nil => nil
  | .cons k v rest => cons k v rest (JObj.indSpine nil cons rest)

theorem mergeEntry_eq (b : JObj) (k : String) (v : JValue) :
    mergeEntry b k v = b.set k (mergeValue (b.lookup k) v) := by
  unfold mergeEntry mergeValue
  cases h : b.lookup k with
  | none => cases v <;> simp [h]
  | some w => cases w <;> cases v <;> simp [h]

theorem lookup_set_same (d : JObj) (k : String) (x : JValue) :
    (d.set k x).lookup k = some x := by
  induction d with
  | nil => simp [JObj.set, JObj.lookup]
  | cons k' w rest ih =>
    by_cases hk : k' = k <;> simp [JObj.set, JObj.lookup, hk, ih]

theorem lookup_set_other (d : JObj) (k key : String) (x : JValue) (h : k ≠ key) :
    (d.set k x).lookup key = d.lookup key := by
  induction d with
  | nil => simp [JObj.set, JObj.lookup, h]
  | cons k' w rest ih =>
    by_cases hk : k' = k
    · subst hk
      simp [JObj.set, JObj.lookup, h]
    · simp [JObj.set, JObj.lookup, hk, ih]

theorem set_lookup_eq_self (d : JObj) (k : String) (x : JValue)
    (h : d.lookup k = some x) : d.set k x = d := by
  induction d with
  | nil => simp [JObj.lookup] at h
  | cons k' w rest ih =>
    by_cases hk : k' = k
    · subst hk
      simp [JObj.lookup] at h
      simp [JObj.set, h]
    · simp [JObj.lookup, hk] at h
      simp [JObj.set, hk, ih h]

theorem lookup_merge_absent (p : JObj) (b : JObj) (key : String)
    (h : p.hasKey key = false) :
    (deep_merge_dicts b p).lookup key = b.lookup key := by
  induction p generalizing b with
  | nil => rfl
  | cons k v rest ih =>
    by_cases hk : k = key
    · subst hk
      simp [JObj.hasKey, JObj.lookup] at h
    · have hrest : rest.hasKey key = false := by
        simpa [JObj.hasKey, JObj.lookup, hk] using h
      calc (deep_merge_dicts b (.cons k v rest)).lookup key
          = (deep_merge_dicts (mergeEntry b k v) rest).lookup key := rfl
        _ = (mergeEntry b k v).lookup key := ih _ hrest
        _ = b.lookup key := by rw [mergeEntry_eq]; exact lookup_set_other _ _ _ _ hk

theorem dwf_cons {k : String} {v : JValue} {rest : JObj}
    (h : dwf (.cons k v rest) = true) :
    rest.hasKey k = false ∧ jwf v = true ∧ dwf rest = true := by
  have h' := h
  unfold dwf at h'
  simp [Bool.and_eq_true] at h'
  exact ⟨h'.1.1, h'.1.2, h'.2⟩

theorem merge_lookup_char (p : JObj) (hp : dwf p = true) (b : JObj) (key : String) :
    (deep_merge_dicts b p).lookup key
      = mergeSpecLookup (b.lookup key) (p.lookup key) := by
  induction p generalizing b with
  | nil => rfl
  | cons k v rest ih =>
    obtain ⟨hnk, hv, hrest⟩ := dwf_cons hp
    by_cases hk : k = key
    · subst hk
      have h1 : (deep_merge_dicts b (.cons k v rest)).lookup k
          = (mergeEntry b k v).lookup k := by
        have : (deep_merge_dicts (mergeEntry b k v) rest).lookup k
            = (mergeEntry b k v).lookup k := lookup_merge_absent rest _ k hnk
        simpa [deep_merge_dicts] using this
      rw [h1, mergeEntry_eq, lookup_set_same]
      simp [JObj.lookup, mergeSpecLookup]
    · have h1 : (deep_merge_dicts b (.cons k v rest)).lookup key
          = mergeSpecLookup ((mergeEntry b k v).lookup key) (rest.lookup key) := by
        simpa [deep_merge_dicts] using ih hrest (mergeEntry b k v)
      rw [h1, mergeEntry_eq, lookup_set_other _ _ _ _ hk]
      simp [JObj.lookup, hk]

mutual

/-- Size measure used for the nested inductions below (array contents are
never recursed into by the merge, so they count as 1). -/
def jsize : JValue → Nat
  | .obj d => dsize d + 1
  | _ => 1

/-- Size of an object spine, counting nested object values. -/
def dsize : JObj → Nat
  | .nil => 0
  | .cons _ v rest => jsize v + dsize rest + 1

end

theorem merge_present : ∀ (n : Nat) (p d : JObj), dsize p ≤ n → dwf p = true →
    (∀ key, p.hasKey key = true → d.lookup key = p.lookup key) →
    deep_merge_dicts d p = d := by
  intro n
  induction n with
  | zero =>
    intro p d hs _ _
    cases p with
    | nil => rfl
    | cons k v rest => simp [dsize] at hs
  | succ n ih =>
    intro p d hs hw hmem
    cases p with
    | nil => rfl
    | cons k v rest =>
      obtain ⟨hnk, hv, hrest⟩ := dwf_cons hw
      have hk : d.lookup k = some v := by
        have h1 : JObj.hasKey (.cons k v rest) k = true := by
          simp [JObj.hasKey, JObj.lookup]
        have h2 := hmem k h1
        simpa [JObj.lookup] using h2
      have hstep : mergeEntry d k v = d := by
        rw [mergeEntry_eq, hk]
        cases v with
        | obj vv =>
          have hvv : dwf vv = true := by simpa [jwf] using hv
          have hsz : dsize vv ≤ n := by
            simp [dsize, jsize] at hs
            omega
          have hself : deep_merge_dicts vv vv = vv :=
            ih vv vv hsz hvv (fun key _ => rfl)
          simpa [mergeValue, hself] using set_lookup_eq_self d k _ hk
        | arr a => simpa [mergeValue] using set_lookup_eq_self d k _ hk
        | str s => simpa [mergeValue] using set_lookup_eq_self d k _ hk
        | num i => simpa [mergeValue] using set_lookup_eq_self d k _ hk
        | bool b0 => simpa [mergeValue] using set_lookup_eq_self d k _ hk
        | null => simpa [mergeValue] using set_lookup_eq_self d k _ hk
      have hmem' : ∀ key, rest.hasKey key = true → d.lookup key = rest.lookup key := by
        intro key hkey
        have hne : k ≠ key := by
          intro he
          subst he
          rw [hnk] at hkey
          cases hkey
        have h1 : JObj.hasKey (.cons k v rest) key = true := by
          simpa [JObj.hasKey, JObj.lookup, hne] using hkey
        have h2 := hmem key h1
        simpa [JObj.lookup, hne] using h2
      have hsz' : dsize rest ≤ n := by
        simp [dsize] at hs
        omega
      calc deep_merge_dicts d (.cons k v rest)
          = deep_merge_dicts (mergeEntry d k v) rest := rfl
        _ = deep_merge_dicts d rest := by rw [hstep]
        _ = d := ih rest d hsz' hrest hmem'

/-- Merging a well-formed mapping into itself is the identity. -/
theorem merge_self (d : JObj) (hw : dwf d = true) : deep_merge_dicts d d = d :=
  merge_present (dsize d) d d le_rfl hw (fun _ _ => rfl)

theorem merge_idem_aux : ∀ (n : Nat) (p b : JObj), dsize p ≤ n → dwf p = true →
    deep_merge_dicts (deep_merge_dicts b p) p = deep_merge_dicts b p := by
  intro n
  induction n with
  | zero =>
    intro p b hs _
    cases p with
    | nil => rfl
    | cons k v rest => simp [dsize] at hs
  | succ n ih =>
    intro p b hs hw
    cases p with
    | nil => rfl
    | cons k v rest =>
      obtain ⟨hnk, hv, hrest⟩ := dwf_cons hw
      have hMdef : deep_merge_dicts b (.cons k v rest)
          = deep_merge_dicts (mergeEntry b k v) rest := rfl
      have hMk : (deep_merge_dicts (mergeEntry b k v) rest).lookup k
          = some (mergeValue (b.lookup k) v) := by
        rw [lookup_merge_absent rest _ k hnk, mergeEntry_eq, lookup_set_same]
      have hstep : mergeEntry (deep_merge_dicts (mergeEntry b k v) rest) k v
          = deep_merge_dicts (mergeEntry b k v) rest := by
        rw [mergeEntry_eq, hMk]
        cases v with
        | obj vv =>
          have hvv : dwf vv = true := by simpa [jwf] using hv
          have hsz : dsize vv ≤ n := by
            simp [dsize, jsize] at hs
            omega
          cases hbk : b.lookup k with
          | none =>
            have hselfvv : deep_merge_dicts vv vv = vv := merge_self vv hvv
            rw [hbk] at hMk
            simpa [mergeValue, hselfvv] using
              set_lookup_eq_self _ k _ (by simpa [mergeValue] using hMk)
          | some w =>
            cases w with
            | obj bb =>
              have hidem : deep_merge_dicts (deep_merge_dicts bb vv) vv
                  = deep_merge_dicts bb vv := ih vv bb hsz hvv
              rw [hbk] at hMk
              simpa [mergeValue, hidem] using
                set_lookup_eq_self _ k _ (by simpa [mergeValue] using hMk)
            | arr a =>
              have hselfvv : deep_merge_dicts vv vv = vv := merge_self vv hvv
              rw [hbk] at hMk
              simpa [mergeValue, hselfvv] using
                set_lookup_eq_self _ k _ (by simpa [mergeValue] using hMk)
            | str s =>
              have hselfvv : deep_merge_dicts vv vv = vv := merge_self vv hvv
              rw [hbk] at hMk
              simpa [mergeValue, hselfvv] using
                set_lookup_eq_self _ k _ (by simpa [mergeValue] using hMk)
            | num i =>
              have hselfvv : deep_merge_dicts vv vv = vv := merge_self vv hvv
              rw [hbk] at hMk
              simpa [mergeValue, hselfvv] using
                set_lookup_eq_self _ k _ (by simpa [mergeValue] using hMk)
            | bool b0 =>
              have hselfvv : deep_merge_dicts vv vv = vv := merge_self vv hvv
              rw [hbk] at hMk
              simpa [mergeValue, hselfvv] using
                set_lookup_eq_self _ k _ (by simpa [mergeValue] using hMk)
            | null =>
              have hselfvv : deep_merge_dicts vv vv = vv := merge_self vv hvv
              rw [hbk] at hMk
              simpa [mergeValue, hselfvv] using
                set_lookup_eq_self _ k _ (by simpa [mergeValue] using hMk)
        | arr a =>
          simpa [mergeValue] using
            set_lookup_eq_self _ k _ (by simpa [mergeValue] using hMk)
        | str s =>
          simpa [mergeValue] using
            set_lookup_eq_self _ k _ (by simpa [mergeValue] using hMk)
        | num i =>
          simpa [mergeValue] using
            set_lookup_eq_self _ k _ (by simpa [mergeValue] using hMk)
        | bool b0 =>
          simpa [mergeValue] using
            set_lookup_eq_self _ k _ (by simpa [mergeValue] using hMk)
        | null =>
          simpa [mergeValue] using
            set_lookup_eq_self _ k _ (by simpa [mergeValue] using hMk)
      have hsz' : dsize rest ≤ n := by
        simp [dsize] at hs
        omega
      calc deep_merge_dicts (deep_merge_dicts b (.cons k v rest)) (.cons k v rest)
          = deep_merge_dicts (deep_merge_dicts (mergeEntry b k v) rest)
              (.cons k v rest) := by rw [hMdef]
        _ = deep_merge_dicts
              (mergeEntry (deep_merge_dicts (mergeEntry b k v) rest) k v) rest := rfl
        _ = deep_merge_dicts (deep_merge_dicts (mergeEntry b k v) rest) rest := by
            rw [hstep]
        _ = deep_merge_dicts (mergeEntry b k v) rest := ih rest (mergeEntry b k v) hsz' hrest
        _ = deep_merge_dicts b (.cons k v rest) := rfl

/-- C1: the deep-merge operation merges recursively at every key bound to a
mapping on both sides and otherwise replaces the stored value with the
incoming value (arrays and scalars wholesale), and for every base mapping `b`
and payload `p`, merging `p` twice yields the same mapping as merging it once:
`deep_merge_dicts (deep_merge_dicts b p) p = deep_merge_dicts b p`. -/
theorem deep_merge_char_and_idempotent (b p : JObj) (hp : dwf p = true) :
    (∀ key, (deep_merge_dicts b p).lookup key
        = mergeSpecLookup (b.lookup key) (p.lookup key))
    ∧ deep_merge_dicts (deep_merge_dicts b p) p = deep_merge_dicts b p :=
  ⟨merge_lookup_char p hp b, merge_idem_aux (dsize p) p b le_rfl hp⟩

/-- Concrete base mapping `{"a": {"x": 1}, "s": 5}` for the C1 witness. -/
def mergeBaseExample : JObj :=
  .cons "a" (.obj (.cons "x" (.num 1) .nil)) (.cons "s" (.num 5) .nil)

/-- Concrete payload `{"a": {"y": 2}, "t": [3]}` for the C1 witness. -/
def mergePayloadExample : JObj :=
  .cons "a" (.obj (.cons "y" (.num 2) .nil))
    (.cons "t" (.arr (.cons (.num 3) .nil)) .nil)

/-- Witness for C1 at the concrete example mappings. -/
theorem deep_merge_char_and_idempotent_witness :
    dwf mergePayloadExample = true ∧
    deep_merge_dicts (deep_merge_dicts mergeBaseExample mergePayloadExample)
        mergePayloadExample
      = deep_merge_dicts mergeBaseExample mergePayloadExample :=
  ⟨by decide,
   (deep_merge_char_and_idempotent mergeBaseExample mergePayloadExample (by decide)).2⟩

/-! ## Heap model of `deep_merge_dicts` (frame property, C10)

The pure model above cannot express mutation, so for the frame claim we embed
the same Python function over an explicit address-indexed store: `HVal` is one
heap cell (dict cells hold addresses of their values, list cells hold element
addresses), `Store` is the heap together with a fresh-address counter.
`copy.deepcopy` is modelled as a recursive fresh copy (fuel bounds the
recursion; it returns `none` when the fuel runs out). -/

inductive HVal where
  | hobj : List (String × Nat) → HVal
  | harr : List Nat → HVal
  | hstr : String → HVal
  | hnum : Int → HVal
  | hbool : Bool → HVal
  | hnull : HVal
deriving DecidableEq, Repr

structure Store where
  mem : List (Nat × HVal)
  next : Nat
deriving DecidableEq, Repr

/-- Dereference an address. -/
def readAddr (σ : Store) (a : Nat) : Option HVal :=
  (σ.mem.find? (fun p => p.1 == a)).map (fun p => p.2)

/-- Overwrite the cell at an (already allocated) address. -/
def writeAddr (σ : Store) (a : Nat) (v : HVal) : Store :=
  { σ with mem := σ.mem.map (fun p => if p.1 == a then (p.1, v) else p) }

/-- Allocate a fresh cell. -/
def alloc (σ : Store) (v : HVal) : Nat × Store :=
  (σ.next, { mem := (σ.next, v) :: σ.mem, next := σ.next + 1 })

/-- `entries[k]` for a dict cell's entry list. -/
def entryLookup : List (String × Nat) → String → Option Nat
  | [], _ => none
  | (k, a) :: rest, key => if k = key then some a else entryLookup rest key

/-- `entries[k] = a` for a dict cell's entry list (update first or append). -/
def entrySet : List (String × Nat) → String → Nat → List (String × Nat)
  | [], key, a => [(key, a)]
  | (k, b) :: rest, key, a =>
      if k = key then (key, a) :: rest else (k, b) :: entrySet rest key a

mutual

/-- `copy.deepcopy` of the value at address `a`: fresh cells for the whole
reachable structure (acyclic inputs; fuel-bounded). -/
def copyVal (fuel : Nat) (σ : Store) (a : Nat) : Option (Nat × Store) :=
  match fuel with
  | 0 => none
  | fuel + 1 =>
    match readAddr σ a with
    | none => none
    | some (.hobj es) =>
      match copyEntries fuel σ es with
      | none => none
      | some (es2, σ2) => some (alloc σ2 (.hobj es2))
    | some (.harr xs) =>
      match copyList fuel σ xs with
      | none => none
      | some (xs2, σ2) => some (alloc σ2 (.harr xs2))
    | some v => some (alloc σ v)

/-- Deep copy of a dict cell's entries, left to right. -/
def copyEntries (fuel : Nat) (σ : Store) :
    List (String × Nat) → Option (List (String × Nat) × Store) :=
  match fuel with
  | 0 => fun _ => none
  | fuel + 1 => fun es =>
    match es with
    | [] => some ([], σ)
    | (k, a) :: rest =>
      match copyVal fuel σ a with
      | none => none
      | some (a2, σ2) =>
        match copyEntries fuel σ2 rest with
        | none => none
        | some (rest2, σ3) => some ((k, a2) :: rest2, σ3)

/-- Deep copy of a list cell's elements, left to right. -/
def copyList (fuel : Nat) (σ : Store) : List Nat → Option (List Nat × Store) :=
  match fuel with
  | 0 => fun _ => none
  | fuel + 1 => fun xs =>
    match xs with
    | [] => some ([], σ)
    | a :: rest =>
      match copyVal fuel σ a with
      | none => none
      | some (a2, σ2) =>
        match copyList fuel σ2 rest with
        | none => none
        | some (rest2, σ3) => some (a2 :: rest2, σ3)

end

mutual

/-- Heap-level `deep_merge_dicts(base, incoming)` (app/services/orders.py
lines 17-24), with Python's in-place mutation made explicit:
`result = deepcopy(base) if base else {}` allocates fresh cells, each loop
iteration mutates only the `result` cell. -/
def mergeValsSt (fuel : Nat) (σ : Store) (baseA incomingA : Nat) :
    Option (Nat × Store) :=
  match fuel with
  | 0 => none
  | fuel + 1 =>
    match readAddr σ baseA, readAddr σ incomingA with
    | some (.hobj bes), some (.hobj ies) =>
      match (if bes.isEmpty then some (alloc σ (.hobj []))
             else copyVal fuel σ baseA) with
      | none => none
      | some (resA, σ2) =>
        match mergeLoopSt fuel σ2 resA ies with
        | none => none
        | some σ3 => some (resA, σ3)
    | _, _ => none

/-- The `for key, value in incoming.items()` loop over the result cell. -/
def mergeLoopSt (fuel : Nat) (σ : Store) (resA : Nat) :
    List (String × Nat) → Option Store :=
  match fuel with
  | 0 => fun _ => none
  | fuel + 1 => fun entries =>
    match entries with
    | [] => some σ
    | (k, vA) :: rest =>
      match readAddr σ resA with
      | some (.hobj resEs) =>
        match entryLookup resEs k with
        | some rkA =>
          match readAddr σ rkA, readAddr σ vA with
          | some (.hobj _), some (.hobj _) =>
            match mergeValsSt fuel σ rkA vA with
            | none => none
            | some (mA, σ2) =>
              match readAddr σ2 resA with
              | some (.hobj resEs2) =>
                mergeLoopSt fuel (writeAddr σ2 resA (.hobj (entrySet resEs2 k mA)))
                  resA rest
              | _ => none
          | _, _ =>
            mergeLoopSt fuel (writeAddr σ resA (.hobj (entrySet resEs k vA))) resA rest
        | none =>
          mergeLoopSt fuel (writeAddr σ resA (.hobj (entrySet resEs k vA))) resA rest
      | _ => none

end

theorem readAddr_alloc_other (σ : Store) (v : HVal) (x : Nat) (h : x ≠ σ.next) :
    readAddr (alloc σ v).2 x = readAddr σ x := by
  have hb : (σ.next == x) = false := by
    simp
    exact fun he => h he.symm
  simp [readAddr, alloc, List.find?, hb]

theorem find?_write_other (l : List (Nat × HVal)) (b : Nat) (v : HVal) (x : Nat)
    (h : x ≠ b) :
    ((l.map (fun p => if p.1 == b then (p.1, v) else p)).find?
        (fun p => p.1 == x)).map (fun p => p.2)
      = (l.find? (fun p => p.1 == x)).map (fun p => p.2) := by
  induction l with
  | nil => rfl
  | cons p rest ih =>
    by_cases hpb : p.1 = b
    · have hpx : ¬ p.1 = x := by rw [hpb]; exact fun he => h he.symm
      have hhead : (if (p.1 == b) = true then (p.1, v) else p) = (p.1, v) := by
        simp [hpb]
      rw [List.map_cons, hhead, List.find?_cons_of_neg _ (by simp [hpx]),
        List.find?_cons_of_neg _ (by simp [hpx])]
      exact ih
    · have hhead : (if (p.1 == b) = true then (p.1, v) else p) = p := by simp [hpb]
      rw [List.map_cons, hhead]
      by_cases hpx : p.1 = x
      · rw [List.find?_cons_of_pos _ (by simp [hpx]),
          List.find?_cons_of_pos _ (by simp [hpx])]
      · rw [List.find?_cons_of_neg _ (by simp [hpx]),
          List.find?_cons_of_neg _ (by simp [hpx])]
        exact ih

theorem readAddr_write_other (σ : Store) (b : Nat) (v : HVal) (x : Nat) (h : x ≠ b) :
    readAddr (writeAddr σ b v) x = readAddr σ x :=
  find?_write_other σ.mem b v x h

theorem writeAddr_next (σ : Store) (a : Nat) (v : HVal) :
    (writeAddr σ a v).next = σ.next := rfl

theorem alloc_frame (σ : Store) (v : HVal) (r : Nat) (σ' : Store)
    (h : alloc σ v = (r, σ')) :
    σ.next ≤ σ'.next ∧ σ.next ≤ r ∧
      ∀ x, x < σ.next → readAddr σ' x = readAddr σ x := by
  have h1 : σ.next = r := congrArg Prod.fst h
  have h2 : (alloc σ v).2 = σ' := congrArg Prod.snd h
  have hn : σ'.next = σ.next + 1 := by rw [← h2]; rfl
  refine ⟨by omega, by omega, ?_⟩
  intro x hx
  rw [← h2]
  exact readAddr_alloc_other σ v x (Nat.ne_of_lt hx)

theorem copy_frame : ∀ fuel : Nat,
    (∀ σ a r σ', copyVal fuel σ a = some (r, σ') →
      σ.next ≤ σ'.next ∧ σ.next ≤ r ∧
        ∀ x, x < σ.next → readAddr σ' x = readAddr σ x) ∧
    (∀ σ es es2 σ', copyEntries fuel σ es = some (es2, σ') →
      σ.next ≤ σ'.next ∧ ∀ x, x < σ.next → readAddr σ' x = readAddr σ x) ∧
    (∀ σ xs xs2 σ', copyList fuel σ xs = some (xs2, σ') →
      σ.next ≤ σ'.next ∧ ∀ x, x < σ.next → readAddr σ' x = readAddr σ x) := by
  intro fuel
  induction fuel with
  | zero =>
    refine ⟨?_, ?_, ?_⟩
    · intro σ a r σ' h
      simp [copyVal] at h
    · intro σ es es2 σ' h
      simp [copyEntries] at h
    · intro σ xs xs2 σ' h
      simp [copyList] at h
  | succ fuel ih =>
    obtain ⟨ihv, ihe, ihl⟩ := ih
    refine ⟨?_, ?_, ?_⟩
    · intro σ a r σ' h
      unfold copyVal at h
      cases hra : readAddr σ a with
      | none =>
        rw [hra] at h
        exact absurd h (by simp)
      | some v =>
        rw [hra] at h
        cases v with
        | hobj es =>
          cases hce : copyEntries fuel σ es with
          | none =>
            simp only [hce] at h
            exact absurd h (by simp)
          | some pr =>
            obtain ⟨es2, σ2⟩ := pr
            simp only [hce] at h
            have hal := alloc_frame σ2 _ r σ' (Option.some.inj h)
            have hfr := ihe σ es es2 σ2 hce
            refine ⟨by omega, by omega, ?_⟩
            intro x hx
            rw [hal.2.2 x (by omega), hfr.2 x hx]
        | harr xs =>
          cases hce : copyList fuel σ xs with
          | none =>
            simp only [hce] at h
            exact absurd h (by simp)
          | some pr =>
            obtain ⟨xs2, σ2⟩ := pr
            simp only [hce] at h
            have hal := alloc_frame σ2 _ r σ' (Option.some.inj h)
            have hfr := ihl σ xs xs2 σ2 hce
            refine ⟨by omega, by omega, ?_⟩
            intro x hx
            rw [hal.2.2 x (by omega), hfr.2 x hx]
        | hstr s => exact alloc_frame σ _ r σ' (Option.some.inj h)
        | hnum i => exact alloc_frame σ _ r σ' (Option.some.inj h)
        | hbool b0 => exact alloc_frame σ _ r σ' (Option.some.inj h)
        | hnull => exact alloc_frame σ _ r σ' (Option.some.inj h)
    · intro σ es es2 σ' h
      unfold copyEntries at h
      cases es with
      | nil =>
        have h' := Option.some.inj h
        have hσ : σ = σ' := congrArg Prod.snd h'
        subst hσ
        exact ⟨le_rfl, fun x _ => rfl⟩
      | cons p rest =>
        obtain ⟨k, a⟩ := p
        cases hcv : copyVal fuel σ a with
        | none =>
          simp only [hcv] at h
          exact absurd h (by simp)
        | some pr =>
          obtain ⟨a2, σ2⟩ := pr
          simp only [hcv] at h
          cases hre : copyEntries fuel σ2 rest with
          | none =>
            simp only [hre] at h
            exact absurd h (by simp)
          | some pr2 =>
            obtain ⟨rest2, σ3⟩ := pr2
            simp only [hre] at h
            have h' := Option.some.inj h
            have hσ : σ3 = σ' := congrArg Prod.snd h'
            subst hσ
            have h1 := ihv σ a a2 σ2 hcv
            have h2 := ihe σ2 rest rest2 σ3 hre
            refine ⟨by omega, ?_⟩
            intro x hx
            rw [h2.2 x (by omega), h1.2.2 x hx]
    · intro σ xs xs2 σ' h
      unfold copyList at h
      cases xs with
      | nil =>
        have h' := Option.some.inj h
        have hσ : σ = σ' := congrArg Prod.snd h'
        subst hσ
        exact ⟨le_rfl, fun x _ => rfl⟩
      | cons a rest =>
        cases hcv : copyVal fuel σ a with
        | none =>
          simp only [hcv] at h
          exact absurd h (by simp)
        | some pr =>
          obtain ⟨a2, σ2⟩ := pr
          simp only [hcv] at h
          cases hre : copyList fuel σ2 rest with
          | none =>
            simp only [hre] at h
            exact absurd h (by simp)
          | some pr2 =>
            obtain ⟨rest2, σ3⟩ := pr2
            simp only [hre] at h
            have h' := Option.some.inj h
            have hσ : σ3 = σ' := congrArg Prod.snd h'
            subst hσ
            have h1 := ihv σ a a2 σ2 hcv
            have h2 := ihl σ2 rest rest2 σ3 hre
            refine ⟨by omega, ?_⟩
            intro x hx
            rw [h2.2 x (by omega), h1.2.2 x hx]

theorem mergeLoop_write_frame (fuel : Nat) (σ : Store) (resA : Nat)
    (entries2 : List (String × Nat)) (rest : List (String × Nat)) (σ' : Store)
    (ihloop : ∀ (τ : Store) (rA : Nat) (es : List (String × Nat)) (τ' : Store),
      mergeLoopSt fuel τ rA es = some τ' →
      τ.next ≤ τ'.next ∧ ∀ x, x < τ.next → x ≠ rA → readAddr τ' x = readAddr τ x)
    (h : mergeLoopSt fuel (writeAddr σ resA (.hobj entries2)) resA rest = some σ') :
    σ.next ≤ σ'.next ∧ ∀ x, x < σ.next → x ≠ resA → readAddr σ' x = readAddr σ x := by
  have hl := ihloop _ resA rest σ' h
  rw [writeAddr_next] at hl
  refine ⟨hl.1, ?_⟩
  intro x hx hne
  rw [hl.2 x hx hne, readAddr_write_other σ resA _ x hne]

theorem merge_frame : ∀ fuel : Nat,
    (∀ σ a b r σ', mergeValsSt fuel σ a b = some (r, σ') →
      σ.next ≤ σ'.next ∧ σ.next ≤ r ∧
        ∀ x, x < σ.next → readAddr σ' x = readAddr σ x) ∧
    (∀ σ resA entries σ', mergeLoopSt fuel σ resA entries = some σ' →
      σ.next ≤ σ'.next ∧
        ∀ x, x < σ.next → x ≠ resA → readAddr σ' x = readAddr σ x) := by
  intro fuel
  induction fuel with
  | zero =>
    constructor
    · intro σ a b r σ' h
      simp [mergeValsSt] at h
    · intro σ resA entries σ' h
      simp [mergeLoopSt] at h
  | succ fuel ih =>
    obtain ⟨ihm, ihloop⟩ := ih
    constructor
    · intro σ a b r σ' h
      unfold mergeValsSt at h
      cases hra : readAddr σ a with
      | none =>
        simp only [hra] at h
        exact Option.noConfusion h
      | some v =>
        cases v with
        | hobj bes =>
          cases hrb : readAddr σ b with
          | none =>
            simp only [hra, hrb] at h
            exact Option.noConfusion h
          | some w =>
            cases w with
            | hobj ies =>
              simp only [hra, hrb] at h
              by_cases hbe : bes.isEmpty = true
              · rcases hal : alloc σ (HVal.hobj []) with ⟨resA, σ2⟩
                rw [if_pos hbe, hal] at h
                have hfr := alloc_frame σ _ resA σ2 hal
                cases hml : mergeLoopSt fuel σ2 resA ies with
                | none =>
                  simp only [hml] at h
                  exact Option.noConfusion h
                | some σ3 =>
                  simp only [hml] at h
                  have h' := Option.some.inj h
                  have hr : resA = r := congrArg Prod.fst h'
                  have hσ : σ3 = σ' := congrArg Prod.snd h'
                  subst hr
                  subst hσ
                  have hl := ihloop σ2 resA ies σ3 hml
                  refine ⟨by omega, by omega, ?_⟩
                  intro x hx
                  rw [hl.2 x (by omega) (by omega), hfr.2.2 x hx]
              · rw [if_neg hbe] at h
                cases hcv : copyVal fuel σ a with
                | none =>
                  simp only [hcv] at h
                  exact Option.noConfusion h
                | some pr =>
                  obtain ⟨resA, σ2⟩ := pr
                  simp only [hcv] at h
                  have hfr := (copy_frame fuel).1 σ a resA σ2 hcv
                  cases hml : mergeLoopSt fuel σ2 resA ies with
                  | none =>
                    simp only [hml] at h
                    exact Option.noConfusion h
                  | some σ3 =>
                    simp only [hml] at h
                    have h' := Option.some.inj h
                    have hr : resA = r := congrArg Prod.fst h'
                    have hσ : σ3 = σ' := congrArg Prod.snd h'
                    subst hr
                    subst hσ
                    have hl := ihloop σ2 resA ies σ3 hml
                    refine ⟨by omega, by omega, ?_⟩
                    intro x hx
                    rw [hl.2 x (by omega) (by omega), hfr.2.2 x hx]
            | harr xs =>
              simp only [hra, hrb] at h
              exact Option.noConfusion h
            | hstr s =>
              simp only [hra, hrb] at h
              exact Option.noConfusion h
            | hnum i =>
              simp only [hra, hrb] at h
              exact Option.noConfusion h
            | hbool b0 =>
              simp only [hra, hrb] at h
              exact Option.noConfusion h
            | hnull =>
              simp only [hra, hrb] at h
              exact Option.noConfusion h
        | harr xs =>
          simp only [hra] at h
          exact Option.noConfusion h
        | hstr s =>
          simp only [hra] at h
          exact Option.noConfusion h
        | hnum i =>
          simp only [hra] at h
          exact Option.noConfusion h
        | hbool b0 =>
          simp only [hra] at h
          exact Option.noConfusion h
        | hnull =>
          simp only [hra] at h
          exact Option.noConfusion h
    · intro σ resA entries σ' h
      unfold mergeLoopSt at h
      cases entries with
      | nil =>
        have hσ : σ = σ' := Option.some.inj h
        subst hσ
        exact ⟨le_rfl, fun _ _ _ => rfl⟩
      | cons p rest =>
        obtain ⟨k, vA⟩ := p
        cases hrr : readAddr σ resA with
        | none =>
          simp only [hrr] at h
          exact Option.noConfusion h
        | some rv =>
          cases rv with
          | hobj resEs =>
            simp only [hrr] at h
            cases hel : entryLookup resEs k with
            | none =>
              simp only [hel] at h
              exact mergeLoop_write_frame fuel σ resA _ rest σ' ihloop h
            | some rkA =>
              simp only [hel] at h
              cases hr1 : readAddr σ rkA with
              | none =>
                simp only [hr1] at h
                exact mergeLoop_write_frame fuel σ resA _ rest σ' ihloop h
              | some w1 =>
                cases w1 with
                | hobj o1 =>
                  cases hr2 : readAddr σ vA with
                  | none =>
                    simp only [hr1, hr2] at h
                    exact mergeLoop_write_frame fuel σ resA _ rest σ' ihloop h
                  | some w2 =>
                    cases w2 with
                    | hobj o2 =>
                      simp only [hr1, hr2] at h
                      cases hmv : mergeValsSt fuel σ rkA vA with
                      | none =>
                        simp only [hmv] at h
                        exact Option.noConfusion h
                      | some pr =>
                        obtain ⟨mA, σ2⟩ := pr
                        simp only [hmv] at h
                        have hm := ihm σ rkA vA mA σ2 hmv
                        cases hrr2 : readAddr σ2 resA with
                        | none =>
                          simp only [hrr2] at h
                          exact Option.noConfusion h
                        | some rv2 =>
                          cases rv2 with
                          | hobj resEs2 =>
                            simp only [hrr2] at h
                            have hl := ihloop _ resA rest σ' h
                            rw [writeAddr_next] at hl
                            refine ⟨by omega, ?_⟩
                            intro x hx hne
                            rw [hl.2 x (by omega) hne,
                              readAddr_write_other σ2 resA _ x hne, hm.2.2 x hx]
                          | harr xs2 =>
                            simp only [hrr2] at h
                            exact Option.noConfusion h
                          | hstr s2 =>
                            simp only [hrr2] at h
                            exact Option.noConfusion h
                          | hnum i2 =>
                            simp only [hrr2] at h
                            exact Option.noConfusion h
                          | hbool b2 =>
                            simp only [hrr2] at h
                            exact Option.noConfusion h
                          | hnull =>
                            simp only [hrr2] at h
                            exact Option.noConfusion h
                    | harr xs2 =>
                      simp only [hr1, hr2] at h
                      exact mergeLoop_write_frame fuel σ resA _ rest σ' ihloop h
                    | hstr s2 =>
                      simp only [hr1, hr2] at h
                      exact mergeLoop_write_frame fuel σ resA _ rest σ' ihloop h
                    | hnum i2 =>
                      simp only [hr1, hr2] at h
                      exact mergeLoop_write_frame fuel σ resA _ rest σ' ihloop h
                    | hbool b2 =>
                      simp only [hr1, hr2] at h
                      exact mergeLoop_write_frame fuel σ resA _ rest σ' ihloop h
                    | hnull =>
                      simp only [hr1, hr2] at h
                      exact mergeLoop_write_frame fuel σ resA _ rest σ' ihloop h
                | harr xs1 =>
                  simp only [hr1] at h
                  exact mergeLoop_write_frame fuel σ resA _ rest σ' ihloop h
                | hstr s1 =>
                  simp only [hr1] at h
                  exact mergeLoop_write_frame fuel σ resA _ rest σ' ihloop h
                | hnum i1 =>
                  simp only [hr1] at h
                  exact mergeLoop_write_frame fuel σ resA _ rest σ' ihloop h
                | hbool b1 =>
                  simp only [hr1] at h
                  exact mergeLoop_write_frame fuel σ resA _ rest σ' ihloop h
                | hnull =>
                  simp only [hr1] at h
                  exact mergeLoop_write_frame fuel σ resA _ rest σ' ihloop h
          | harr xs =>
            simp only [hrr] at h
            exact Option.noConfusion h
          | hstr s =>
            simp only [hrr] at h
            exact Option.noConfusion h
          | hnum i =>
            simp only [hrr] at h
            exact Option.noConfusion h
          | hbool b0 =>
            simp only [hrr] at h
            exact Option.noConfusion h
          | hnull =>
            simp only [hrr] at h
            exact Option.noConfusion h

/-- C10: `deep_merge_dicts` is pure with respect to its arguments — every heap
cell that existed before the call (in particular the whole base mapping and
everything reachable from it) reads the same afterwards, and the returned
result is a freshly allocated cell (built on a deep copy), never an address
that existed before the call. -/
theorem deep_merge_no_mutation (fuel : Nat) (σ : Store) (baseA incomingA r : Nat)
    (σ' : Store) (h : mergeValsSt fuel σ baseA incomingA = some (r, σ')) :
    (∀ x, x < σ.next → readAddr σ' x = readAddr σ x) ∧ σ.next ≤ r :=
  ⟨((merge_frame fuel).1 σ baseA incomingA r σ' h).2.2,
   ((merge_frame fuel).1 σ baseA incomingA r σ' h).2.1⟩

/-- Heap with base `{"a": 1}` at address 0 and incoming `{"b": 2}` at
address 1, for the C10 witness. -/
def mergeFrameStoreExample : Store :=
  { mem := [(0, .hobj [("a", 2)]), (1, .hobj [("b", 3)]), (2, .hnum 1), (3, .hnum 2)],
    next := 4 }

/-- The heap after merging address 1 into address 0 of
`mergeFrameStoreExample`: the result lives at the fresh address 5 and the four
original cells are untouched. -/
def mergeFrameStoreResult : Store :=
  { mem := [(5, .hobj [("a", 4), ("b", 3)]), (4, .hnum 1),
            (0, .hobj [("a", 2)]), (1, .hobj [("b", 3)]), (2, .hnum 1), (3, .hnum 2)],
    next := 6 }

/-- Witness for C10 at the concrete example heap. -/
theorem deep_merge_no_mutation_witness :
    mergeValsSt 10 mergeFrameStoreExample 0 1 = some (5, mergeFrameStoreResult) ∧
    ((∀ x, x < mergeFrameStoreExample.next →
        readAddr mergeFrameStoreResult x = readAddr mergeFrameStoreExample x) ∧
      mergeFrameStoreExample.next ≤ 5) :=
  ⟨by decide,
   deep_merge_no_mutation 10 mergeFrameStoreExample 0 1 5 mergeFrameStoreResult
     (by decide)⟩

/-! ## Database rows and timestamps

Rows of the `orders`, `users` and `order_feedbacks` tables
(app/models.py), with UUIDs modelled as numbers.  A Python `datetime` is a
wall-clock value together with an optional UTC-offset (`tzinfo`):
`replace(tzinfo=UTC)` keeps the wall clock and stamps offset 0, while
`astimezone(UTC)` shifts the wall clock by the offset. -/

structure PyDateTime where
  wall : Int
  tz : Option Int
deriving DecidableEq, Repr

/-- `ensure_utc` (app/utils/time.py lines 25-30). -/
def ensure_utc : Option PyDateTime → Option PyDateTime
  | none => none
  | some dt =>
    match dt.tz with
    | none => some { dt with tz := some 0 }
    | some off => some { wall := dt.wall - off, tz := some 0 }

/-- A row of the `orders` table (app/models.py lines 19-58). -/
structure OrderRow where
  id : Nat
  external_id : Option Nat
  link : String
  title : String
  summary : Option String
  pub_date : Option PyDateTime
  rss_raw : List (String × String)
  enriched_json : JObj
  created_at : PyDateTime
  updated_at : PyDateTime
deriving DecidableEq, Repr

/-- A row of the `order_feedbacks` table (app/models.py lines 137-158). -/
structure FeedbackRow where
  id : Nat
  order_id : Nat
  user_id : Nat
  feedback_text : String
  status : String
deriving DecidableEq, Repr

/-- The relevant database state for the feedback endpoints: orders, user uids
and feedback rows, plus the autoincrement counter for feedback ids. -/
structure FeedbackState where
  orders : List OrderRow
  users : List Nat
  feedbacks : List FeedbackRow
  nextId : Nat
deriving DecidableEq, Repr

/-- Outcome of `POST /api/feedbacks`: the created row, or an HTTP client
error status. -/
inductive FeedbackResult where
  | created (f : FeedbackRow)
  | clientError (status : Nat)
deriving DecidableEq, Repr

/-- `create_feedback` (app/routes/feedbacks.py lines 23-73): check that the
order exists (else 404), that the user exists (else 404), and that no feedback
for this (order, user) pair exists yet (else 400); then insert a new row with
status `"pending"`.  Error responses leave the stored state unchanged. -/
def create_feedback (st : FeedbackState) (order_id user_id : Nat)
    (feedback_text : String) : FeedbackResult × FeedbackState :=
  match st.orders.find? (fun o => o.id == order_id) with
  | none => (.clientError 404, st)
  | some _ =>
    match st.users.find? (fun u => u == user_id) with
    | none => (.clientError 404, st)
    | some _ =>
      match st.feedbacks.find? (fun f => f.order_id == order_id && f.user_id == user_id) with
      | some _ => (.clientError 400, st)
      | none =>
        let f : FeedbackRow :=
          { id := st.nextId, order_id := order_id, user_id := user_id,
            feedback_text := feedback_text, status := "pending" }
        (.created f,
         { st with feedbacks := st.feedbacks ++ [f], nextId := st.nextId + 1 })

/-- At most one feedback row per (order, user) pair. -/
def pairUnique (l : List FeedbackRow) : Prop :=
  List.Pairwise (fun f g => ¬(f.order_id = g.order_id ∧ f.user_id = g.user_id)) l

/-- A database index declaration. -/
structure IndexDecl where
  name : String
  table : String
  columns : List String
  unique : Bool
deriving DecidableEq, Repr

/-- The backing uniqueness constraint on the `order_feedbacks` table
(migrations/add_order_feedbacks.py lines 42-47). -/
def order_feedbacks_unique_index : IndexDecl :=
  { name := "ix_order_feedbacks_unique_user_order", table := "order_feedbacks",
    columns := ["order_id", "user_id"], unique := true }

theorem find?_append_none {α : Type} (l l2 : List α) (p : α → Bool)
    (h : l.find? p = none) : (l ++ l2).find? p = l2.find? p := by
  induction l with
  | nil => rfl
  | cons a rest ih =>
    have hpa : ¬ p a = true := by
      intro hp
      rw [List.find?_cons_of_pos _ hp] at h
      exact Option.noConfusion h
    rw [List.find?_cons_of_neg _ hpa] at h
    rw [List.cons_append, List.find?_cons_of_neg _ hpa]
    exact ih h

/-- C2: when the order and the user both exist and no feedback for the pair is
stored, the first submission succeeds and stores a row with status
`"pending"`; the second submission for the same pair is rejected with a 400
client error and leaves the state unchanged; any call preserves the
at-most-one-feedback-per-pair invariant; and the table carries a unique index
on (order_id, user_id) as the backing constraint. -/
theorem create_feedback_unique (st : FeedbackState) (oid uid : Nat) (t1 t2 : String)
    (horder : (st.orders.find? (fun o => o.id == oid)).isSome = true)
    (huser : (st.users.find? (fun u => u == uid)).isSome = true)
    (hnew : st.feedbacks.find?
      (fun f => f.order_id == oid && f.user_id == uid) = none) :
    (create_feedback st oid uid t1).1
        = .created { id := st.nextId, order_id := oid, user_id := uid, feedback_text := t1, status := "pending" } ∧
    (create_feedback st oid uid t1).2.feedbacks
        = st.feedbacks ++ [{ id := st.nextId, order_id := oid, user_id := uid, feedback_text := t1, status := "pending" }] ∧
    (create_feedback (create_feedback st oid uid t1).2 oid uid t2).1
        = .clientError 400 ∧
    (create_feedback (create_feedback st oid uid t1).2 oid uid t2).2
        = (create_feedback st oid uid t1).2 ∧
    (pairUnique st.feedbacks → pairUnique (create_feedback st oid uid t1).2.feedbacks) ∧
    order_feedbacks_unique_index.unique = true ∧
    order_feedbacks_unique_index.columns = ["order_id", "user_id"] := by
  obtain ⟨o, ho⟩ := Option.isSome_iff_exists.mp horder
  obtain ⟨u, hu⟩ := Option.isSome_iff_exists.mp huser
  have hrow : (fun f : FeedbackRow => f.order_id == oid && f.user_id == uid)
      { id := st.nextId, order_id := oid, user_id := uid, feedback_text := t1, status := "pending" } = true := by
    simp
  have hfind2 : List.find? (fun f : FeedbackRow => f.order_id == oid && f.user_id == uid) (st.feedbacks ++ [{ id := st.nextId, order_id := oid, user_id := uid, feedback_text := t1, status := "pending" }]) = some { id := st.nextId, order_id := oid, user_id := uid, feedback_text := t1, status := "pending" } := by
    rw [find?_append_none _ _ _ hnew]
    exact List.find?_cons_of_pos _ hrow
  refine ⟨?_, ?_, ?_, ?_, ?_, rfl, rfl⟩
  · simp only [create_feedback, ho, hu, hnew]
  · simp only [create_feedback, ho, hu, hnew]
  · simp only [create_feedback, ho, hu, hnew, hfind2]
  · simp only [create_feedback, ho, hu, hnew, hfind2]
  · intro hpu
    simp only [create_feedback, ho, hu, hnew]
    unfold pairUnique at hpu ⊢
    rw [List.pairwise_append]
    refine ⟨hpu, List.pairwise_singleton _ _, ?_⟩
    intro a ha b hb
    have hb' : b = { id := st.nextId, order_id := oid, user_id := uid, feedback_text := t1, status := "pending" } := by
      simpa using hb
    subst hb'
    have hne := List.find?_eq_none.mp hnew a ha
    simp only [Bool.and_eq_true, beq_iff_eq] at hne
    intro hcontra
    exact hne ⟨hcontra.1, hcontra.2⟩

/-- Concrete state for the C2 witness: one order (id 1), one user (uid 7),
no feedbacks yet. -/
def feedbackStateExample : FeedbackState :=
  { orders := [{ id := 1, external_id := some 123, link := "https://www.fl.ru/projects/123/a.html",
                 title := "t", summary := none, pub_date := none, rss_raw := [],
                 enriched_json := .nil,
                 created_at := { wall := 0, tz := some 0 },
                 updated_at := { wall := 0, tz := some 0 } }],
    users := [7], feedbacks := [], nextId := 1 }

/-- Witness for C2 at the concrete example state. -/
theorem create_feedback_unique_witness :
    ((feedbackStateExample.orders.find? (fun o => o.id == 1)).isSome = true ∧
     (feedbackStateExample.users.find? (fun u => u == 7)).isSome = true ∧
     feedbackStateExample.feedbacks.find?
       (fun f => f.order_id == 1 && f.user_id == 7) = none) ∧
    ((create_feedback feedbackStateExample 1 7 "hi").1
        = .created { id := 1, order_id := 1, user_id := 7, feedback_text := "hi", status := "pending" } ∧
     (create_feedback (create_feedback feedbackStateExample 1 7 "hi").2 1 7 "again").1
        = .clientError 400) := by
  have h := create_feedback_unique feedbackStateExample 1 7 "hi" "again"
    (by decide) (by decide) (by decide)
  exact ⟨⟨by decide, by decide, by decide⟩, h.1, h.2.2.1⟩

/-! ## Python string primitives

`str.strip` / `str.lower` modelled over charater lists (ASCII; the service's
field values are ASCII keywords).  Lean's own `String.trim`/`String.toLower`
are avoided because they are defined by well-founded recursion and do not
reduce inside the kernel. -/

/-- Whitespace as stripped by Python `str.strip()`. -/
def isPySpace (c : Char) : Bool :=
  c = ' ' ∨ c = '\t' ∨ c = '\n' ∨ c = '\r' ∨ c = '\x0b' ∨ c = '\x0c'

/-- `s.strip()`. -/
def pyStrip (s : String) : String :=
  ⟨((s.data.dropWhile isPySpace).reverse.dropWhile isPySpace).reverse⟩

/-- `s.lower()` (ASCII). -/
def pyLower (s : String) : String :=
  ⟨s.data.map (fun c => if 'A' ≤ c ∧ c ≤ 'Z' then Char.ofNat (c.toNat + 32) else c)⟩

/-- `s.strip().lower()`. -/
def pyStripLower (s : String) : String :=
  pyLower (pyStrip s)

/-! ## Upload intent resolution (C7) -/

/-- Terminal outcome of the upload dispatcher `_dispatch_upload`: attachment
handling, metadata handling of the resolved payload string, or the HTTP 400
client error whose detail indicates that there is nothing to process. -/
inductive UploadIntent where
  | attachment
  | metadata (payload : String)
  | clientError (status : Nat) (detail : String)
deriving DecidableEq, Repr

/-- Normalisation applied to the `type` field during extraction
(app/routes/upload.py line 75 and the analogous JSON/urlencoded branches): a
missing or falsy value stays unset, otherwise the value is stripped and
lower-cased. -/
def normalize_type_field : Option String → Option String
  | none => none
  | some t => if t = "" then none else some (pyStripLower t)

/-- The `else` part of the terminal branching: metadata intent for a truthy
payload string, otherwise the 400 error (app/routes/upload.py lines 166-169). -/
def metadataBranch : Option String → UploadIntent
  | some s =>
      if s ≠ "" then .metadata s
      else .clientError 400 "Invalid request: nothing to process"
  | none => .clientError 400 "Invalid request: nothing to process"

/-- The terminal branching of `_dispatch_upload` (app/routes/upload.py lines
155-169): attachment intent when a file was resolved or the normalised `type`
equals "attachment"; otherwise the metadata-or-error branch. -/
def dispatch_upload (file : Option Unit) (type_value : Option String)
    (project_data_raw : Option String) : UploadIntent :=
  if file.isSome || type_value == some "attachment" then .attachment
  else metadataBranch project_data_raw

/-- C7: the upload intent resolver has exactly two terminal outcomes plus the
400 failure: attachment iff a file was resolved or the stripped, lower-cased
`type` field equals "attachment"; otherwise metadata iff a non-empty payload
string was resolved; otherwise a 400 client error whose detail indicates
nothing to process. -/
theorem dispatch_upload_char (file : Option Unit) (tv pdr : Option String) :
    (dispatch_upload file (normalize_type_field tv) pdr = .attachment
      ↔ (file.isSome = true ∨ ∃ t, tv = some t ∧ pyStripLower t = "attachment")) ∧
    (∀ s, dispatch_upload file (normalize_type_field tv) pdr = .metadata s
      ↔ (file = none ∧ (∀ t, tv = some t → pyStripLower t ≠ "attachment")
          ∧ pdr = some s ∧ s ≠ "")) ∧
    (dispatch_upload file (normalize_type_field tv) pdr
        = .clientError 400 "Invalid request: nothing to process"
      ↔ (file = none ∧ (∀ t, tv = some t → pyStripLower t ≠ "attachment")
          ∧ (pdr = none ∨ pdr = some ""))) := by
  have hattach : (file.isSome || normalize_type_field tv == some "attachment") = true
      ↔ (file.isSome = true ∨ ∃ t, tv = some t ∧ pyStripLower t = "attachment") := by
    cases file with
    | some f => simp
    | none =>
      cases tv with
      | none => simp [normalize_type_field]
      | some t =>
        by_cases ht : t = ""
        · subst ht
          simp [normalize_type_field]
          decide
        · simp [normalize_type_field, ht]
  by_cases hcond : (file.isSome || normalize_type_field tv == some "attachment") = true
  · have hno : ¬(file = none ∧ ∀ t, tv = some t → pyStripLower t ≠ "attachment") := by
      intro ⟨hf, hnt⟩
      rcases hattach.mp hcond with h | ⟨t, ht, ha⟩
      · rw [hf] at h
        exact Option.noConfusion (Option.isSome_iff_exists.mp h).choose_spec
      · exact hnt t ht ha
    refine ⟨?_, ?_, ?_⟩
    · simp [dispatch_upload, hcond, hattach.mp hcond]
    · intro s
      rw [dispatch_upload, if_pos hcond]
      constructor
      · intro h
        exact absurd h (by simp)
      · intro ⟨hf, hnt, _⟩
        exact absurd ⟨hf, hnt⟩ hno
    · rw [dispatch_upload, if_pos hcond]
      constructor
      · intro h
        exact absurd h (by simp)
      · intro ⟨hf, hnt, _⟩
        exact absurd ⟨hf, hnt⟩ hno
  · have hfile : file = none := by
      cases file with
      | none => rfl
      | some f => simp at hcond
    have hnt : ∀ t, tv = some t → pyStripLower t ≠ "attachment" := by
      intro t ht ha
      exact hcond (hattach.mpr (Or.inr ⟨t, ht, ha⟩))
    refine ⟨?_, ?_, ?_⟩
    · rw [dispatch_upload, if_neg hcond]
      constructor
      · intro h
        cases pdr with
        | none => exact absurd h (by simp [metadataBranch])
        | some s =>
          by_cases hs : s = "" <;> simp [metadataBranch, hs] at h
      · intro h
        exact absurd (hattach.mpr h) hcond
    · intro s
      rw [dispatch_upload, if_neg hcond]
      cases pdr with
      | none =>
        constructor
        · intro h
          exact absurd h (by simp [metadataBranch])
        · intro ⟨_, _, hp, _⟩
          exact Option.noConfusion hp
      | some s2 =>
        by_cases hs2 : s2 = ""
        · subst hs2
          constructor
          · intro h
            simp [metadataBranch] at h
          · intro ⟨_, _, hp, hs⟩
            exact absurd (Option.some.inj hp).symm hs
        · rw [metadataBranch, if_pos hs2]
          constructor
          · intro h
            have hs : s2 = s := by injection h
            exact ⟨hfile, hnt, by rw [hs], hs ▸ hs2⟩
          · intro ⟨_, _, hp, _⟩
            rw [Option.some.inj hp]
    · rw [dispatch_upload, if_neg hcond]
      cases pdr with
      | none =>
        constructor
        · intro _
          exact ⟨hfile, hnt, Or.inl rfl⟩
        · intro _
          rfl
      | some s2 =>
        by_cases hs2 : s2 = ""
        · subst hs2
          rw [metadataBranch, if_neg (by simp)]
          constructor
          · intro _
            exact ⟨hfile, hnt, Or.inr rfl⟩
          · intro _
            rfl
        · rw [metadataBranch, if_pos hs2]
          constructor
          · intro h
            exact absurd h (by simp)
          · intro ⟨_, _, hp⟩
            rcases hp with hp | hp
            · exact Option.noConfusion hp
            · exact absurd (Option.some.inj hp) hs2

/-! ## User category normalisation (C8) -/

/-- The loop of `normalize_categories` (app/services/users.py lines 24-39):
skip `None` entries, strip and lower-case, skip empties, skip values already
seen, append new values at the end. -/
def normalizeLoop : List (Option String) → List String → List String → List String
  | [], _, acc => acc
  | none :: rest, seen, acc => normalizeLoop rest seen acc
  | some s :: rest, seen, acc =>
    let v := pyStripLower s
    if v = "" then normalizeLoop rest seen acc
    else if v ∈ seen then normalizeLoop rest seen acc
    else normalizeLoop rest (v :: seen) (acc ++ [v])

/-- `normalize_categories` (app/services/users.py lines 24-39). -/
def normalize_categories : Option (List (Option String)) → Option (List String)
  | none => none
  | some cats => some (normalizeLoop cats [] [])

/-- Cleaning of one category entry, phrased from the spec: drop `None`,
lower-case and strip, drop empties. -/
def cleanCategory : Option String → Option String
  | none => none
  | some s => if pyStripLower s = "" then none else some (pyStripLower s)

/-- Duplicate removal keeping the first occurrence, phrased from the spec. -/
def dedupFirst : List String → List String
  | [] => []
  | x :: xs => x :: dedupFirst (xs.filter (fun y => y ≠ x))
termination_by l => l.length
decreasing_by
  have := List.length_filter_le (fun y => decide (y ≠ x)) xs
  simp only [List.length_cons]
  omega

/-- `dedupFirst` relative to an already-seen set, mirroring the loop. -/
def dedupNew : List String → List String → List String
  | _, [] => []
  | seen, v :: vs =>
    if v ∈ seen then dedupNew seen vs else v :: dedupNew (v :: seen) vs

theorem normalizeLoop_eq_dedupNew (items : List (Option String)) :
    ∀ seen acc, normalizeLoop items seen acc
      = acc ++ dedupNew seen (items.filterMap cleanCategory) := by
  induction items with
  | nil =>
    intro seen acc
    simp [normalizeLoop, dedupNew]
  | cons item rest ih =>
    intro seen acc
    cases item with
    | none => simpa [normalizeLoop, cleanCategory] using ih seen acc
    | some s =>
      by_cases hv : pyStripLower s = ""
      · simpa [normalizeLoop, cleanCategory, hv] using ih seen acc
      · by_cases hseen : pyStripLower s ∈ seen
        · simpa [normalizeLoop, cleanCategory, hv, hseen, dedupNew] using ih seen acc
        · simp only [normalizeLoop, cleanCategory, hv, hseen, if_false, if_neg,
            List.filterMap_cons]
          rw [ih (pyStripLower s :: seen) (acc ++ [pyStripLower s])]
          simp [dedupNew, hseen, hv]

theorem dedupNew_eq_dedupFirst (xs : List String) :
    ∀ seen, dedupNew seen xs = dedupFirst (xs.filter (fun y => y ∉ seen)) := by
  induction xs with
  | nil =>
    intro seen
    simp [dedupNew, dedupFirst]
  | cons v vs ih =>
    intro seen
    by_cases hv : v ∈ seen
    · simp [dedupNew, hv, ih seen]
    · have h1 : dedupNew seen (v :: vs) = v :: dedupNew (v :: seen) vs := by
        simp [dedupNew, hv]
      have h2 : (v :: vs).filter (fun y => decide (y ∉ seen))
          = v :: vs.filter (fun y => decide (y ∉ seen)) := by
        simp [List.filter_cons, hv]
      rw [h1, h2]
      rw [show dedupFirst (v :: vs.filter (fun y => decide (y ∉ seen)))
          = v :: dedupFirst ((vs.filter (fun y => decide (y ∉ seen))).filter
              (fun y => y ≠ v)) from by rw [dedupFirst]]
      rw [ih (v :: seen)]
      congr 1
      rw [List.filter_filter]
      apply congrArg dedupFirst
      apply List.filter_congr
      intro y hy
      by_cases hy1 : y = v <;> by_cases hy2 : y ∈ seen <;> simp [hy1, hy2]

/-- A row of the `users` table (app/models.py lines 101-116). -/
structure UserRow where
  uid : Nat
  competencies_text : Option String
  categories : Option (List String)
  meta : Option JObj
  updated_at : PyDateTime
deriving DecidableEq, Repr

/-- `create_user` (app/services/users.py lines 42-47): a fresh profile with
only `meta` set; no categories are supplied at creation. -/
def create_user (uid : Nat) (now : PyDateTime) (meta : Option JObj) : UserRow :=
  { uid := uid, competencies_text := none, categories := none, meta := meta,
    updated_at := now }

/-- A PATCH field: absent (`_UNSET`) or set to a value (possibly `None`). -/
inductive PatchField (α : Type) where
  | unset
  | set (value : α)
deriving DecidableEq, Repr

/-- `update_user` (app/services/users.py lines 50-69): overwrite the
competencies text when supplied; when categories are supplied, store
`normalize_categories` of them (`None` clears); stamp `updated_at`. -/
def update_user (u : UserRow) (now : PyDateTime)
    (competencies_text : PatchField (Option String))
    (categories : PatchField (Option (List (Option String)))) : UserRow :=
  let u1 :=
    match competencies_text with
    | .unset => u
    | .set c => { u with competencies_text := c }
  let u2 :=
    match categories with
    | .unset => u1
    | .set none => { u1 with categories := none }
    | .set (some cats) => { u1 with categories := normalize_categories (some cats) }
  { u2 with updated_at := now }

/-- C8: every list of category strings written to a user profile is stored as
the input entries stripped and lower-cased, with `None` and empty entries
dropped and duplicates removed preserving the order of first occurrence
(`dedupFirst` of the cleaned entries); the normalisation is applied on every
write that supplies categories, a `None` update clears them, an update without
the field leaves them unchanged, and creation stores none. -/
theorem normalize_categories_on_write (cats : List (Option String)) (u : UserRow)
    (now : PyDateTime) (c : PatchField (Option String)) (uid : Nat)
    (meta : Option JObj) :
    normalize_categories (some cats)
        = some (dedupFirst (cats.filterMap cleanCategory)) ∧
    (update_user u now c (.set (some cats))).categories
        = some (dedupFirst (cats.filterMap cleanCategory)) ∧
    (update_user u now c (.set none)).categories = none ∧
    (update_user u now c .unset).categories = u.categories ∧
    (create_user uid now meta).categories = none := by
  have hmain : normalize_categories (some cats)
      = some (dedupFirst (cats.filterMap cleanCategory)) := by
    show some (normalizeLoop cats [] []) = _
    rw [normalizeLoop_eq_dedupNew, dedupNew_eq_dedupFirst]
    congr 1
    rw [List.nil_append]
    apply congrArg dedupFirst
    have : ∀ y ∈ cats.filterMap cleanCategory, (decide (y ∉ ([] : List String))) = true := by
      intro y hy
      simp
    rw [List.filter_eq_self.mpr this]
  refine ⟨hmain, ?_, ?_, ?_, rfl⟩
  · cases c <;> simp [update_user, hmain]
  · cases c <;> simp [update_user]
  · cases c <;> simp [update_user]

/-! ## Filename sanitisation and attachment storage (C3, C9) -/

/-- The safe filename alphabet `[A-Za-z0-9._-]`
(app/services/storage.py line 17). -/
def isSafeFileChar (c : Char) : Bool :=
  ('A' ≤ c ∧ c ≤ 'Z') ∨ ('a' ≤ c ∧ c ≤ 'z') ∨ ('0' ≤ c ∧ c ≤ '9')
    ∨ c = '.' ∨ c = '_' ∨ c = '-'

/-- Split a character list on `/`. -/
def splitSlash : List Char → List (List Char)
  | [] => [[]]
  | c :: rest =>
    if c = '/' then [] :: splitSlash rest
    else
      match splitSlash rest with
      | [] => [[c]]
      | comp :: comps => (c :: comp) :: comps

/-- `Path(name).name`: the last path component, after dropping empty and `"."`
components (pathlib keeps `".."`); empty when no component remains. -/
def pathName (s : String) : String :=
  match ((splitSlash s.data).filter (fun c => c ≠ [] ∧ c ≠ ['.'])).getLast? with
  | some c => ⟨c⟩
  | none => ""

/-- `SAFE_CHARS_PATTERN.sub("_", s)` worker: the flag records whether the
previous character was part of an unsafe run (so the run yields only one
underscore). -/
def subSafeGo (inRun : Bool) : List Char → List Char
  | [] => []
  | c :: rest =>
    if isSafeFileChar c then c :: subSafeGo false rest
    else if inRun then subSafeGo true rest
    else '_' :: subSafeGo true rest

/-- `SAFE_CHARS_PATTERN.sub("_", s)` (app/services/storage.py line 23): every
maximal run of characters outside the safe alphabet becomes one underscore. -/
def subSafe (l : List Char) : List Char :=
  subSafeGo false l

/-- `sanitize_filename` (app/services/storage.py lines 20-24):
`sanitized or "file"` falls back to the literal `"file"` when the sanitised
base name is empty. -/
def sanitize_filename (name : String) : String :=
  if (⟨subSafe (pathName name).data⟩ : String) = "" then "file"
  else ⟨subSafe (pathName name).data⟩

/-- One event of an upload byte stream: a chunk of `size` bytes delivered by
`await upload.read(...)` (a 0-byte chunk is end of stream), or the read
raising an unexpected exception. -/
inductive StreamItem where
  | chunk (size : Nat)
  | fault
deriving DecidableEq, Repr

/-- Failure modes of `save_upload_file`, with their HTTP statuses. -/
inductive SaveError where
  | invalidFilename
  | tooLarge
  | emptyFile
  | internalError
deriving DecidableEq, Repr

/-- HTTP status of each failure mode (400 / 413 / 400 / 500). -/
def saveErrorStatus : SaveError → Nat
  | .invalidFilename => 400
  | .tooLarge => 413
  | .emptyFile => 400
  | .internalError => 500

/-- Python `a or b` on optional strings (empty string is falsy). -/
def pyOrStr (a b : Option String) : Option String :=
  match a with
  | some s => if s = "" then b else some s
  | none => b

/-- The streaming loop of `save_upload_file` (app/services/storage.py lines
81-139): count each chunk, abort with 413 (deleting the file) when the
running total exceeds the limit, abort with 400 (deleting the file) when the
stream delivered zero bytes, convert an unexpected exception into a 500 after
deleting the partial file.  Returns the response together with the final disk
state at the target path (`some n` = an `n`-byte file remains, `none` = no
file). -/
def saveLoop (maxBytes : Nat) : Nat → List StreamItem → Except SaveError Nat × Option Nat
  | total, [] =>
    if total = 0 then (.error .emptyFile, none) else (.ok total, some total)
  | total, .chunk n :: rest =>
    if n = 0 then
      if total = 0 then (.error .emptyFile, none) else (.ok total, some total)
    else
      if total + n > maxBytes then (.error .tooLarge, none)
      else saveLoop maxBytes (total + n) rest
  | _, .fault :: _ => (.error .internalError, none)

/-- `save_upload_file` (app/services/storage.py lines 37-139): resolve the
filename (`override_filename or upload.filename or "file"`, sanitised), reject
an empty sanitised name with 400, then stream.  The directory scheme and the
collision suffix do not affect the response or cleanup and are not modelled. -/
def save_upload_file (maxUploadMb : Nat) (override_filename upload_filename : Option String)
    (stream : List StreamItem) : Except SaveError (String × Nat) × Option Nat :=
  let maxBytes := maxUploadMb * 1024 * 1024
  let filename :=
    sanitize_filename ((pyOrStr (pyOrStr override_filename upload_filename)
      (some "file")).getD "file")
  if filename = "" then (.error .invalidFilename, none)
  else
    match saveLoop maxBytes 0 stream with
    | (.ok n, d) => (.ok (filename, n), d)
    | (.error e, d) => (.error e, d)

/-- Failure modes of `save_user_upload_file`: the two `HTTPException`s it
raises itself, or an unexpected exception propagating uncaught (the route has
no handler, so the framework turns it into a 500 — without any file cleanup). -/
inductive UserSaveError where
  | tooLarge
  | emptyFile
  | uncaught
deriving DecidableEq, Repr

/-- The streaming loop of `save_user_upload_file` (app/services/users.py lines
96-153): write each chunk, then count it and abort with 413 (deleting the
file) on overflow; 400 (deleting the file) on zero bytes; but there is no
`except` handler, so an unexpected read exception propagates while the partial
file (`total` bytes so far, the file exists from `open("wb")`) stays on disk. -/
def userSaveLoop (maxBytes : Nat) : Nat → List StreamItem → Except UserSaveError Nat × Option Nat
  | total, [] =>
    if total = 0 then (.error .emptyFile, none) else (.ok total, some total)
  | total, .chunk n :: rest =>
    if n = 0 then
      if total = 0 then (.error .emptyFile, none) else (.ok total, some total)
    else
      if total + n > maxBytes then (.error .tooLarge, none)
      else userSaveLoop maxBytes (total + n) rest
  | total, .fault :: _ => (.error .uncaught, some total)

/-- `save_user_upload_file` (app/services/users.py lines 96-153); the
directory scheme and `_unique_filename` naming are response-irrelevant and not
modelled. -/
def save_user_upload_file (maxUploadMb : Nat) (stream : List StreamItem) :
    Except UserSaveError Nat × Option Nat :=
  userSaveLoop (maxUploadMb * 1024 * 1024) 0 stream

/-- The upload's cumulative byte count exceeds the limit before the stream
ends or faults (i.e. the loop would hit the 413 branch). -/
def exceedsLimit (maxBytes : Nat) : Nat → List StreamItem → Bool
  | _, [] => false
  | total, .chunk n :: rest =>
    if n = 0 then false
    else if total + n > maxBytes then true else exceedsLimit maxBytes (total + n) rest
  | _, .fault :: _ => false

/-- The upload yields zero bytes (immediate end of stream). -/
def yieldsZeroBytes : List StreamItem → Bool
  | [] => true
  | .chunk 0 :: _ => true
  | _ => false

/-- The stream raises an unexpected exception before ending, before a zero
chunk and before exceeding the limit (i.e. the loop would hit the fault). -/
def hitsFault (maxBytes : Nat) : Nat → List StreamItem → Bool
  | _, [] => false
  | total, .chunk n :: rest =>
    if n = 0 then false
    else if total + n > maxBytes then false else hitsFault maxBytes (total + n) rest
  | _, .fault :: _ => true

theorem saveLoop_error_none (mb : Nat) :
    ∀ stream total e d, saveLoop mb total stream = (.error e, d) → d = none := by
  intro stream
  induction stream with
  | nil =>
    intro total e d h
    simp only [saveLoop] at h
    split at h
    · exact (congrArg Prod.snd h).symm
    · exact absurd (congrArg Prod.fst h) (by simp)
  | cons item rest ih =>
    intro total e d h
    cases item with
    | chunk n =>
      simp only [saveLoop] at h
      split at h
      · split at h
        · exact (congrArg Prod.snd h).symm
        · exact absurd (congrArg Prod.fst h) (by simp)
      · split at h
        · exact (congrArg Prod.snd h).symm
        · exact ih _ e d h
    | fault =>
      simp only [saveLoop] at h
      exact (congrArg Prod.snd h).symm

theorem saveLoop_no_invalid (mb : Nat) :
    ∀ stream total d, saveLoop mb total stream ≠ (.error .invalidFilename, d) := by
  intro stream
  induction stream with
  | nil =>
    intro total d h
    simp only [saveLoop] at h
    split at h
    · exact absurd (congrArg Prod.fst h) (by simp)
    · exact absurd (congrArg Prod.fst h) (by simp)
  | cons item rest ih =>
    intro total d h
    cases item with
    | chunk n =>
      simp only [saveLoop] at h
      split at h
      · split at h
        · exact absurd (congrArg Prod.fst h) (by simp)
        · exact absurd (congrArg Prod.fst h) (by simp)
      · split at h
        · exact absurd (congrArg Prod.fst h) (by simp)
        · exact ih _ d h
    | fault =>
      simp only [saveLoop] at h
      exact absurd (congrArg Prod.fst h) (by simp)

theorem saveLoop_exceeds (mb : Nat) :
    ∀ stream total, exceedsLimit mb total stream = true →
      saveLoop mb total stream = (.error .tooLarge, none) := by
  intro stream
  induction stream with
  | nil =>
    intro total h
    simp [exceedsLimit] at h
  | cons item rest ih =>
    intro total h
    cases item with
    | chunk n =>
      by_cases hn : n = 0
      · simp [exceedsLimit, hn] at h
      · by_cases hover : total + n > mb
        · simp [saveLoop, hn, hover]
        · simp only [exceedsLimit, if_neg hn, if_neg hover] at h
          simp only [saveLoop, if_neg hn, if_neg hover]
          exact ih _ h
    | fault =>
      simp [exceedsLimit] at h

theorem saveLoop_zero (mb : Nat) (stream : List StreamItem)
    (h : yieldsZeroBytes stream = true) :
    saveLoop mb 0 stream = (.error .emptyFile, none) := by
  cases stream with
  | nil => rfl
  | cons item rest =>
    cases item with
    | chunk n =>
      cases n with
      | zero => rfl
      | succ m => simp [yieldsZeroBytes] at h
    | fault => simp [yieldsZeroBytes] at h

theorem saveLoop_fault (mb : Nat) :
    ∀ stream total, hitsFault mb total stream = true →
      saveLoop mb total stream = (.error .internalError, none) := by
  intro stream
  induction stream with
  | nil =>
    intro total h
    simp [hitsFault] at h
  | cons item rest ih =>
    intro total h
    cases item with
    | chunk n =>
      by_cases hn : n = 0
      · simp [hitsFault, hn] at h
      · by_cases hover : total + n > mb
        · simp [hitsFault, hn, hover] at h
        · simp only [hitsFault, if_neg hn, if_neg hover] at h
          simp only [saveLoop, if_neg hn, if_neg hover]
          exact ih _ h
    | fault => rfl

theorem userSaveLoop_exceeds (mb : Nat) :
    ∀ stream total, exceedsLimit mb total stream = true →
      userSaveLoop mb total stream = (.error .tooLarge, none) := by
  intro stream
  induction stream with
  | nil =>
    intro total h
    simp [exceedsLimit] at h
  | cons item rest ih =>
    intro total h
    cases item with
    | chunk n =>
      by_cases hn : n = 0
      · simp [exceedsLimit, hn] at h
      · by_cases hover : total + n > mb
        · simp [userSaveLoop, hn, hover]
        · simp only [exceedsLimit, if_neg hn, if_neg hover] at h
          simp only [userSaveLoop, if_neg hn, if_neg hover]
          exact ih _ h
    | fault =>
      simp [exceedsLimit] at h

theorem userSaveLoop_zero (mb : Nat) (stream : List StreamItem)
    (h : yieldsZeroBytes stream = true) :
    userSaveLoop mb 0 stream = (.error .emptyFile, none) := by
  cases stream with
  | nil => rfl
  | cons item rest =>
    cases item with
    | chunk n =>
      cases n with
      | zero => rfl
      | succ m => simp [yieldsZeroBytes] at h
    | fault => simp [yieldsZeroBytes] at h

theorem userSaveLoop_fault (mb : Nat) :
    ∀ stream total, hitsFault mb total stream = true →
      ∃ nbytes, userSaveLoop mb total stream = (.error .uncaught, some nbytes) := by
  intro stream
  induction stream with
  | nil =>
    intro total h
    simp [hitsFault] at h
  | cons item rest ih =>
    intro total h
    cases item with
    | chunk n =>
      by_cases hn : n = 0
      · simp [hitsFault, hn] at h
      · by_cases hover : total + n > mb
        · simp [hitsFault, hn, hover] at h
        · simp only [hitsFault, if_neg hn, if_neg hover] at h
          simp only [userSaveLoop, if_neg hn, if_neg hover]
          exact ih _ h
    | fault =>
      exact ⟨total, rfl⟩

theorem subSafeGo_safe :
    ∀ (l : List Char) (flag : Bool) (c : Char), c ∈ subSafeGo flag l →
      isSafeFileChar c = true := by
  intro l
  induction l with
  | nil =>
    intro flag c hc
    simp [subSafeGo] at hc
  | cons d rest ih =>
    intro flag c hc
    by_cases hd : isSafeFileChar d
    · simp only [subSafeGo, if_pos hd] at hc
      rcases List.mem_cons.mp hc with rfl | hc
      · exact hd
      · exact ih false c hc
    · cases flag with
      | true =>
        simp only [subSafeGo, if_neg hd, if_pos] at hc
        exact ih true c hc
      | false =>
        simp only [subSafeGo, if_neg hd] at hc
        rcases List.mem_cons.mp hc with rfl | hc
        · decide
        · exact ih true c hc

theorem sanitize_filename_ne_empty (name : String) : sanitize_filename name ≠ "" := by
  unfold sanitize_filename
  by_cases hc : (⟨subSafe (pathName name).data⟩ : String) = ""
  · rw [if_pos hc]
    decide
  · rw [if_neg hc]
    exact hc

/-- C9: `sanitize_filename` always returns a non-empty string over the safe
alphabet `[A-Za-z0-9._-]` (falling back to `"file"`), so the 400
"Invalid filename" branch of `save_upload_file` is unreachable. -/
theorem sanitize_filename_valid (name : String) :
    sanitize_filename name ≠ "" ∧
    (∀ c ∈ (sanitize_filename name).data, isSafeFileChar c = true) ∧
    (∀ (mb : Nat) (ovr upn : Option String) (stream : List StreamItem)
        (d : Option Nat),
      save_upload_file mb ovr upn stream ≠ (.error .invalidFilename, d)) := by
  refine ⟨sanitize_filename_ne_empty name, ?_, ?_⟩
  · intro c hc
    unfold sanitize_filename at hc
    split at hc
    · have hfc : c = 'f' ∨ c = 'i' ∨ c = 'l' ∨ c = 'e' := by
        simpa using hc
      rcases hfc with rfl | rfl | rfl | rfl <;> decide
    · exact subSafeGo_safe _ _ c hc
  · intro mb ovr upn stream d h
    simp only [save_upload_file] at h
    rw [if_neg (sanitize_filename_ne_empty _)] at h
    rcases hsl : saveLoop (mb * 1024 * 1024) 0 stream with ⟨r, d2⟩
    cases r with
    | ok n =>
      simp only [hsl] at h
      exact absurd (congrArg Prod.fst h) (by simp)
    | error e =>
      simp only [hsl] at h
      have he : e = .invalidFilename := by
        simpa using congrArg Prod.fst h
      exact saveLoop_no_invalid _ stream 0 d2 (by rw [hsl, he])

/-- Witness for C9 at concrete inputs. -/
theorem sanitize_filename_valid_witness :
    sanitize_filename "dir/we|ird name!.txt" ≠ "" ∧
    save_upload_file 1 none none [.chunk 3]
      ≠ (.error .invalidFilename, none) :=
  ⟨(sanitize_filename_valid "dir/we|ird name!.txt").1,
   (sanitize_filename_valid "x").2.2 1 none none [.chunk 3] none⟩

/-- C3 (amended): for the order-attachment save (`save_upload_file`), an
upload whose cumulative byte count exceeds the `max_upload_mb` ceiling yields
a 413 with no file left on disk, a zero-byte upload yields a 400 with no file
left, an unexpected streaming exception yields a 500 with the partial file
deleted, and no failure path leaves a file; for the user save
(`save_user_upload_file`) the 413 and 400 clauses hold likewise, but an
unexpected streaming exception propagates uncaught and leaves the partial
file on disk. -/
theorem save_cleanup_char (mb : Nat) (ovr upn : Option String)
    (stream : List StreamItem) :
    (exceedsLimit (mb * 1024 * 1024) 0 stream = true →
      save_upload_file mb ovr upn stream = (.error .tooLarge, none)) ∧
    (yieldsZeroBytes stream = true →
      save_upload_file mb ovr upn stream = (.error .emptyFile, none)) ∧
    (hitsFault (mb * 1024 * 1024) 0 stream = true →
      save_upload_file mb ovr upn stream = (.error .internalError, none)) ∧
    (∀ e d, save_upload_file mb ovr upn stream = (.error e, d) → d = none) ∧
    (exceedsLimit (mb * 1024 * 1024) 0 stream = true →
      save_user_upload_file mb stream = (.error .tooLarge, none)) ∧
    (yieldsZeroBytes stream = true →
      save_user_upload_file mb stream = (.error .emptyFile, none)) ∧
    (hitsFault (mb * 1024 * 1024) 0 stream = true →
      (save_user_upload_file mb stream).1 = .error .uncaught ∧
        (save_user_upload_file mb stream).2 ≠ none) ∧
    saveErrorStatus .tooLarge = 413 ∧ saveErrorStatus .emptyFile = 400 ∧
    saveErrorStatus .internalError = 500 := by
  have hred : ∀ r : Except SaveError Nat × Option Nat,
      saveLoop (mb * 1024 * 1024) 0 stream = r →
      ∀ e d, r = (.error e, d) →
      save_upload_file mb ovr upn stream = (.error e, d) := by
    intro r hsl e d hr
    subst hr
    simp only [save_upload_file]
    rw [if_neg (sanitize_filename_ne_empty _), hsl]
  refine ⟨?_, ?_, ?_, ?_, ?_, ?_, ?_, rfl, rfl, rfl⟩
  · intro h
    exact hred _ (saveLoop_exceeds _ stream 0 h) _ _ rfl
  · intro h
    exact hred _ (saveLoop_zero _ stream h) _ _ rfl
  · intro h
    exact hred _ (saveLoop_fault _ stream 0 h) _ _ rfl
  · intro e d h
    simp only [save_upload_file] at h
    rw [if_neg (sanitize_filename_ne_empty _)] at h
    rcases hsl : saveLoop (mb * 1024 * 1024) 0 stream with ⟨r, d2⟩
    cases r with
    | ok n =>
      simp only [hsl] at h
      exact absurd (congrArg Prod.fst h) (by simp)
    | error e2 =>
      simp only [hsl] at h
      have hd : d2 = d := congrArg Prod.snd h
      subst hd
      exact saveLoop_error_none _ stream 0 e2 d2 hsl
  · intro h
    exact userSaveLoop_exceeds _ stream 0 h
  · intro h
    exact userSaveLoop_zero _ stream h
  · intro h
    obtain ⟨nbytes, hn⟩ := userSaveLoop_fault _ stream 0 h
    unfold save_user_upload_file
    rw [hn]
    exact ⟨rfl, by simp⟩

/-- Counterexample for C3 as stated: streaming to the user save raises after
5 bytes were written; the exception propagates (no 500-with-cleanup) and a
5-byte file remains on disk, so "no residual file on any failure path" is
false for `save_user_upload_file`. -/
theorem save_user_residual_counterexample :
    save_user_upload_file 1 [.chunk 5, .fault] = (.error .uncaught, some 5) ∧
    (save_user_upload_file 1 [.chunk 5, .fault]).2 ≠ none :=
  ⟨rfl, by decide⟩

/-- Witness for C3 (amended) at concrete streams. -/
theorem save_cleanup_char_witness :
    (exceedsLimit (1 * 1024 * 1024) 0 [.chunk 2000000] = true ∧
      save_upload_file 1 none none [.chunk 2000000] = (.error .tooLarge, none)) ∧
    (yieldsZeroBytes ([] : List StreamItem) = true ∧
      save_upload_file 1 none none [] = (.error .emptyFile, none)) ∧
    (hitsFault (1 * 1024 * 1024) 0 [.chunk 7, .fault] = true ∧
      save_upload_file 1 none none [.chunk 7, .fault]
        = (.error .internalError, none) ∧
      (save_user_upload_file 1 [.chunk 7, .fault]).1 = .error .uncaught) :=
  ⟨⟨by decide, (save_cleanup_char 1 none none [.chunk 2000000]).1 (by decide)⟩,
   ⟨by decide, (save_cleanup_char 1 none none []).2.1 (by decide)⟩,
   ⟨by decide, (save_cleanup_char 1 none none [.chunk 7, .fault]).2.2.1 (by decide),
    ((save_cleanup_char 1 none none [.chunk 7, .fault]).2.2.2.2.2.2.1 (by decide)).1⟩⟩

/-! ## Order reconciliation and RSS ingest (C4, C5, C6) -/

/-- Python truthiness of an optional string (`None` and `""` are falsy). -/
def optStrTruthy : Option String → Bool
  | none => false
  | some s => s ≠ ""

/-- Digits of a decimal literal to a number (`int(match.group(1))`). -/
def digitsToNat (ds : List Char) : Nat :=
  ds.foldl (fun acc c => acc * 10 + (c.toNat - 48)) 0

/-- Match `EXTERNAL_ID_PATTERN = /projects/(\d+)/` at the head of the list:
the literal, then one or more digits, then a slash. -/
def matchProjectsAt (l : List Char) : Option Nat :=
  let pre := "/projects/".data
  if pre.isPrefixOf l then
    let rest := l.drop pre.length
    let ds := rest.takeWhile Char.isDigit
    if ds ≠ [] ∧ (rest.drop ds.length).head? = some '/' then
      some (digitsToNat ds)
    else none
  else none

/-- `re.search` for the pattern: first matching position wins. -/
def searchProjects : List Char → Option Nat
  | [] => none
  | c :: rest =>
    match matchProjectsAt (c :: rest) with
    | some n => some n
    | none => searchProjects rest

/-- `extract_external_id` (app/utils/parsing.py lines 7-16): `None` for a
falsy url, else the first `/projects/(\d+)/` group as a number. -/
def extract_external_id (url : Option String) : Option Nat :=
  match url with
  | none => none
  | some s => if s = "" then none else searchProjects s.data

/-- `parse_rss_date` (app/utils/time.py lines 8-22) for string inputs, with
the stdlib `parsedate_to_datetime` (an external collaborator) passed in as a
function; `none` from it models the TypeError/ValueError branch.  The parsed
datetime is then normalised to UTC exactly as in the source. -/
def parse_rss_date (parsedate : String → Option PyDateTime)
    (value : Option String) : Option PyDateTime :=
  match value with
  | none => none
  | some s =>
    if s = "" then none
    else
      match parsedate s with
      | none => none
      | some dt =>
        match dt.tz with
        | none => some { dt with tz := some 0 }
        | some off => some { wall := dt.wall - off, tz := some 0 }

/-- `_build_lookup_clause` + `session.scalar(select...limit(1))`
(app/services/orders.py lines 27-44): with an external id, match on
`external_id == eid OR link == link`; otherwise on the link alone. -/
def rss_lookup (db : List OrderRow) (external_id : Option Nat) (link : String) :
    Option OrderRow :=
  match external_id with
  | some e => db.find? (fun o => o.external_id == some e || o.link == link)
  | none => db.find? (fun o => o.link == link)

/-- `upsert_order_from_rss` (app/services/orders.py lines 33-67): insert a new
row when the lookup finds nothing (created = true); otherwise overwrite
title/summary/pub-date/raw payload, backfill `external_id` when the stored one
was null and the incoming one is present, and stamp `updated_at`
(created = false). -/
def upsert_order_from_rss (db : List OrderRow) (nextId : Nat)
    (external_id : Option Nat) (link : String) (title : String)
    (summary : Option String) (pub_date : Option PyDateTime)
    (rss_raw : List (String × String)) (now : PyDateTime) :
    OrderRow × Bool × List OrderRow × Nat :=
  match rss_lookup db external_id link with
  | none =>
    let o : OrderRow :=
      { id := nextId, external_id := external_id, link := link, title := title,
        summary := summary, pub_date := ensure_utc pub_date, rss_raw := rss_raw,
        enriched_json := .nil, created_at := now, updated_at := now }
    (o, true, db ++ [o], nextId + 1)
  | some o =>
    let o2 : OrderRow :=
      { o with
        title := title, summary := summary, pub_date := ensure_utc pub_date,
        rss_raw := rss_raw,
        external_id :=
          if external_id ≠ none ∧ o.external_id = none then external_id
          else o.external_id,
        updated_at := now }
    (o2, false, db.map (fun x => if x.id = o.id then o2 else x), nextId)

/-- `ensure_order` (app/services/orders.py lines 70-95): look up by
`external_id` first, then by truthy `link`; when neither matches, create a
placeholder row with an empty raw payload (when none is supplied) and a
synthetic `unknown://<timestamp>` link when no truthy link was supplied. -/
def ensure_order (db : List OrderRow) (nextId : Nat)
    (external_id : Option Nat) (link : Option String)
    (title : Option String) (summary : Option String)
    (rss_raw : Option (List (String × String)))
    (nowTs : String) (now : PyDateTime) : OrderRow × List OrderRow × Nat :=
  let found1 : Option OrderRow :=
    match external_id with
    | some e => db.find? (fun o => o.external_id == some e)
    | none => none
  let found2 : Option OrderRow :=
    match found1 with
    | some o => some o
    | none =>
      if optStrTruthy link then db.find? (fun o => o.link == link.getD "")
      else none
  match found2 with
  | some o => (o, db, nextId)
  | none =>
    let o : OrderRow :=
      { id := nextId,
        external_id := external_id,
        link := (pyOrStr link (some ("unknown://" ++ nowTs))).getD "",
        title := (pyOrStr title (some "")).getD "",
        summary := summary,
        pub_date := none,
        rss_raw := rss_raw.getD [],
        enriched_json := .nil,
        created_at := now, updated_at := now }
    (o, db ++ [o], nextId + 1)

/-- The per-entry loop of `ingest_rss` (app/rss.py lines 61-85), counting
inserts and updates.  Entries are passed as their extracted fields:
`link` (`entry.get("link")`), `title` (`entry.get("title", "")`),
summary/description, published/pubDate, and the raw payload `dict(entry)`. -/
structure FeedEntry where
  link : Option String
  title : String
  summary : Option String
  description : Option String
  published : Option String
  pubDate : Option String
  raw : List (String × String)
deriving DecidableEq, Repr

/-- One loop iteration test: `if not link or not title: continue`. -/
def entrySkipped (e : FeedEntry) : Bool :=
  !optStrTruthy e.link || e.title = ""

/-- The ingest loop: skip entries without truthy link/title, otherwise upsert
and count created as inserted, found as updated. -/
def ingestEntries (parsedate : String → Option PyDateTime) (now : PyDateTime) :
    List FeedEntry → List OrderRow → Nat → Nat → Nat →
    Nat × Nat × List OrderRow × Nat
  | [], db, nextId, inserted, updated => (inserted, updated, db, nextId)
  | e :: rest, db, nextId, inserted, updated =>
    if entrySkipped e then
      ingestEntries parsedate now rest db nextId inserted updated
    else
      let summary := pyOrStr e.summary e.description
      let pub_date := parse_rss_date parsedate (pyOrStr e.published e.pubDate)
      let eid := extract_external_id e.link
      match upsert_order_from_rss db nextId eid (e.link.getD "") e.title summary
          pub_date e.raw now with
      | (_, created, db2, next2) =>
        if created then
          ingestEntries parsedate now rest db2 next2 (inserted + 1) updated
        else
          ingestEntries parsedate now rest db2 next2 inserted (updated + 1)

/-- C6: `ensure_order` looks up first by external id, only then by truthy
link; when neither matches it creates a placeholder row (id from the
autoincrement counter, the supplied external id, empty raw payload when none
is supplied, synthetic `unknown://<timestamp>` link when no truthy link was
supplied) — and in every case the returned owning order is present in the
resulting database. -/
theorem ensure_order_char (db : List OrderRow) (nextId : Nat)
    (eid : Option Nat) (link : Option String) (title summary : Option String)
    (rss_raw : Option (List (String × String))) (nowTs : String)
    (now : PyDateTime) (resO : OrderRow) (resDb : List OrderRow) (resNext : Nat)
    (hres : ensure_order db nextId eid link title summary rss_raw nowTs now
      = (resO, resDb, resNext)) :
    resO ∈ resDb ∧
    (∀ e o, eid = some e →
      db.find? (fun x => x.external_id == some e) = some o →
      resO = o ∧ resDb = db ∧ resNext = nextId) ∧
    (∀ o, (∀ e, eid = some e →
        db.find? (fun x => x.external_id == some e) = none) →
      optStrTruthy link = true →
      db.find? (fun x => x.link == link.getD "") = some o →
      resO = o ∧ resDb = db ∧ resNext = nextId) ∧
    ((∀ e, eid = some e →
        db.find? (fun x => x.external_id == some e) = none) →
      (optStrTruthy link = true →
        db.find? (fun x => x.link == link.getD "") = none) →
      resDb = db ++ [resO] ∧ resO.id = nextId ∧ resO.external_id = eid ∧
        resO.rss_raw = rss_raw.getD [] ∧
        (optStrTruthy link = false → resO.link = "unknown://" ++ nowTs) ∧
        (∀ s, link = some s → s ≠ "" → resO.link = s)) := by
  cases eid with
  | some e =>
    cases hf1 : db.find? (fun x => x.external_id == some e) with
    | some o =>
      simp only [ensure_order, hf1] at hres
      simp only [Prod.mk.injEq] at hres
      obtain ⟨h1, h2, h3⟩ := hres
      subst h1
      subst h2
      subst h3
      refine ⟨List.mem_of_find?_eq_some hf1, ?_, ?_, ?_⟩
      · intro e' o' he' hfo
        have he : e' = e := by
          injection he'.symm
        subst he
        rw [hf1] at hfo
        exact ⟨Option.some.inj hfo, rfl, rfl⟩
      · intro o' hext _ _
        rw [hext e rfl] at hf1
        exact Option.noConfusion hf1
      · intro hext _
        rw [hext e rfl] at hf1
        exact Option.noConfusion hf1
    | none =>
      cases htr : optStrTruthy link with
      | true =>
        cases hf2 : db.find? (fun x => x.link == link.getD "") with
        | some o =>
          simp only [ensure_order, hf1, htr, if_true, hf2] at hres
          simp only [Prod.mk.injEq] at hres
          obtain ⟨h1, h2, h3⟩ := hres
          subst h1
          subst h2
          subst h3
          refine ⟨List.mem_of_find?_eq_some hf2, ?_, ?_, ?_⟩
          · intro e' o' he' hfo
            have he : e' = e := by
              injection he'.symm
            subst he
            rw [hf1] at hfo
            exact Option.noConfusion hfo
          · intro o' _ _ hfo
            exact ⟨Option.some.inj hfo, rfl, rfl⟩
          · intro _ hlink
            exact Option.noConfusion (hlink rfl)
        | none =>
          simp only [ensure_order, hf1, htr, if_true, hf2] at hres
          simp only [Prod.mk.injEq] at hres
          obtain ⟨h1, h2, h3⟩ := hres
          subst h1
          subst h2
          subst h3
          refine ⟨List.mem_append_right db (List.mem_singleton_self _), ?_, ?_, ?_⟩
          · intro e' o' he' hfo
            have he : e' = e := by
              injection he'.symm
            subst he
            rw [hf1] at hfo
            exact Option.noConfusion hfo
          · intro o' _ _ hfo
            exact Option.noConfusion hfo
          · intro _ _
            refine ⟨rfl, rfl, rfl, rfl, ?_, ?_⟩
            · intro hfalse
              exact Bool.noConfusion hfalse
            · intro s hs hsne
              subst hs
              simp [pyOrStr, hsne]
      | false =>
        simp only [ensure_order, hf1, htr, Bool.false_eq_true, if_false] at hres
        simp only [Prod.mk.injEq] at hres
        obtain ⟨h1, h2, h3⟩ := hres
        subst h1
        subst h2
        subst h3
        refine ⟨List.mem_append_right db (List.mem_singleton_self _), ?_, ?_, ?_⟩
        · intro e' o' he' hfo
          have he : e' = e := by
            injection he'.symm
          subst he
          rw [hf1] at hfo
          exact Option.noConfusion hfo
        · intro o' _ htrue _
          exact Bool.noConfusion htrue
        · intro _ _
          refine ⟨rfl, rfl, rfl, rfl, ?_, ?_⟩
          · intro _
            cases link with
            | none => rfl
            | some s =>
              have hs : s = "" := by
                by_contra hsne
                simp [optStrTruthy, hsne] at htr
              subst hs
              simp [pyOrStr]
          · intro s hs hsne
            subst hs
            simp [optStrTruthy, hsne] at htr
  | none =>
    cases htr : optStrTruthy link with
    | true =>
      cases hf2 : db.find? (fun x => x.link == link.getD "") with
      | some o =>
        simp only [ensure_order, htr, if_true, hf2] at hres
        simp only [Prod.mk.injEq] at hres
        obtain ⟨h1, h2, h3⟩ := hres
        subst h1
        subst h2
        subst h3
        refine ⟨List.mem_of_find?_eq_some hf2, ?_, ?_, ?_⟩
        · intro e' o' he' _
          exact Option.noConfusion he'
        · intro o' _ _ hfo
          exact ⟨Option.some.inj hfo, rfl, rfl⟩
        · intro _ hlink
          exact Option.noConfusion (hlink rfl)
      | none =>
        simp only [ensure_order, htr, if_true, hf2] at hres
        simp only [Prod.mk.injEq] at hres
        obtain ⟨h1, h2, h3⟩ := hres
        subst h1
        subst h2
        subst h3
        refine ⟨List.mem_append_right db (List.mem_singleton_self _), ?_, ?_, ?_⟩
        · intro e' o' he' _
          exact Option.noConfusion he'
        · intro o' _ _ hfo
          exact Option.noConfusion hfo
        · intro _ _
          refine ⟨rfl, rfl, rfl, rfl, ?_, ?_⟩
          · intro hfalse
            exact Bool.noConfusion hfalse
          · intro s hs hsne
            subst hs
            simp [pyOrStr, hsne]
    | false =>
      simp only [ensure_order, htr, Bool.false_eq_true, if_false] at hres
      simp only [Prod.mk.injEq] at hres
      obtain ⟨h1, h2, h3⟩ := hres
      subst h1
      subst h2
      subst h3
      refine ⟨List.mem_append_right db (List.mem_singleton_self _), ?_, ?_, ?_⟩
      · intro e' o' he' _
        exact Option.noConfusion he'
      · intro o' _ htrue _
        exact Bool.noConfusion htrue
      · intro _ _
        refine ⟨rfl, rfl, rfl, rfl, ?_, ?_⟩
        · intro _
          cases link with
          | none => rfl
          | some s =>
            have hs : s = "" := by
              by_contra hsne
              simp [optStrTruthy, hsne] at htr
            subst hs
            simp [pyOrStr]
        · intro s hs hsne
          subst hs
          simp [optStrTruthy, hsne] at htr

/-- The placeholder row created by `ensure_order` in the C6 witness. -/
def ensureOrderExampleRow : OrderRow :=
  { id := 5, external_id := none, link := "unknown://1700000000.0", title := "",
    summary := none, pub_date := none, rss_raw := [], enriched_json := .nil,
    created_at := { wall := 0, tz := some 0 },
    updated_at := { wall := 0, tz := some 0 } }

/-- Witness for C6: on an empty database with no external id and no link, a
placeholder with the synthetic timestamp link is created and owned. -/
theorem ensure_order_char_witness :
    ensure_order [] 5 none none none none none "1700000000.0"
        { wall := 0, tz := some 0 }
      = (ensureOrderExampleRow, [ensureOrderExampleRow], 6) ∧
    ensureOrderExampleRow ∈ [ensureOrderExampleRow] :=
  ⟨by decide,
   (ensure_order_char [] 5 none none none none none "1700000000.0"
      { wall := 0, tz := some 0 } ensureOrderExampleRow [ensureOrderExampleRow] 6
      (by decide)).1⟩

theorem rss_lookup_nil (eid : Option Nat) (link : String) :
    rss_lookup [] eid link = none := by
  cases eid <;> rfl

theorem rss_lookup_link_head (o : OrderRow) (db : List OrderRow)
    (eid : Option Nat) (l : String) (hol : o.link = l) :
    rss_lookup (o :: db) eid l = some o := by
  cases eid with
  | some e =>
    show List.find? (fun o => o.external_id == some e || o.link == l) (o :: db)
      = some o
    apply List.find?_cons_of_pos
    simp [hol]
  | none =>
    show List.find? (fun o => o.link == l) (o :: db) = some o
    apply List.find?_cons_of_pos
    simp [hol]

theorem ingest_twice_aux (parsedate : String → Option PyDateTime)
    (now1 now2 : PyDateTime) (l t1 t2 : String)
    (s1 d1 p1 q1 s2 d2 p2 q2 : Option String)
    (rw1 rw2 : List (String × String))
    (hlne : l ≠ "") (ht1 : t1 ≠ "") (ht2 : t2 ≠ "")
    (i1 u1 : Nat) (db1 : List OrderRow) (n1 : Nat)
    (h1 : ingestEntries parsedate now1 [⟨some l, t1, s1, d1, p1, q1, rw1⟩] [] 1 0 0
      = (i1, u1, db1, n1))
    (i2 u2 : Nat) (db2 : List OrderRow) (n2 : Nat)
    (h2 : ingestEntries parsedate now2 [⟨some l, t2, s2, d2, p2, q2, rw2⟩] db1 n1 0 0
      = (i2, u2, db2, n2)) :
    i1 = 1 ∧ u1 = 0 ∧ i2 = 0 ∧ u2 = 1 ∧ ∃ o, db2 = [o] ∧ o.title = t2 := by
  have hskip1 : entrySkipped ⟨some l, t1, s1, d1, p1, q1, rw1⟩ = false := by
    simp [entrySkipped, optStrTruthy, hlne, ht1]
  have hskip2 : entrySkipped ⟨some l, t2, s2, d2, p2, q2, rw2⟩ = false := by
    simp [entrySkipped, optStrTruthy, hlne, ht2]
  simp only [ingestEntries, hskip1, Bool.false_eq_true, if_false, Option.getD_some,
    upsert_order_from_rss, rss_lookup_nil, List.nil_append, if_true,
    eq_self_iff_true, Nat.zero_add] at h1
  simp only [Prod.mk.injEq] at h1
  obtain ⟨hi1, hu1, hdb1, hn1⟩ := h1
  subst hi1
  subst hu1
  subst hdb1
  subst hn1
  have hlk : rss_lookup
      [{ id := 1, external_id := extract_external_id (some l), link := l,
         title := t1, summary := pyOrStr s1 d1,
         pub_date := ensure_utc (parse_rss_date parsedate (pyOrStr p1 q1)),
         rss_raw := rw1, enriched_json := .nil,
         created_at := now1, updated_at := now1 }]
      (extract_external_id (some l)) l = some
      { id := 1, external_id := extract_external_id (some l), link := l,
        title := t1, summary := pyOrStr s1 d1,
        pub_date := ensure_utc (parse_rss_date parsedate (pyOrStr p1 q1)),
        rss_raw := rw1, enriched_json := .nil,
        created_at := now1, updated_at := now1 } :=
    rss_lookup_link_head _ [] _ l rfl
  simp only [ingestEntries, hskip2, Bool.false_eq_true, if_false, Option.getD_some,
    upsert_order_from_rss, hlk, List.map_cons, List.map_nil, if_true,
    eq_self_iff_true, Nat.zero_add] at h2
  simp only [Prod.mk.injEq] at h2
  obtain ⟨hi2, hu2, hdb2, hn2⟩ := h2
  subst hi2
  subst hu2
  subst hdb2
  subst hn2
  exact ⟨rfl, rfl, rfl, rfl, ⟨_, rfl, rfl⟩⟩

/-- C5: the upsert-from-feed operation looks up an existing order matching
external id OR link; when found it overwrites title, summary, publish date
and raw payload, backfills the external id when the stored one was null and
the incoming one present, and reports not-created; when not found it inserts
a new record and reports created.  Consequently ingesting the same entry
twice (the second time with a changed title) yields inserted=1,updated=0 then
inserted=0,updated=1, and the stored title equals the second title. -/
theorem upsert_from_feed_char
    (db : List OrderRow) (nextId : Nat) (eid : Option Nat) (link title : String)
    (summary : Option String) (pd : Option PyDateTime)
    (raw : List (String × String)) (now : PyDateTime) :
    (rss_lookup db eid link = none →
      ∀ o created db2 n2,
        upsert_order_from_rss db nextId eid link title summary pd raw now
          = (o, created, db2, n2) →
        created = true ∧ db2 = db ++ [o] ∧ o.id = nextId ∧ o.title = title ∧
          o.summary = summary ∧ o.pub_date = ensure_utc pd ∧ o.rss_raw = raw ∧
          o.external_id = eid ∧ o.link = link ∧ n2 = nextId + 1) ∧
    (∀ f, rss_lookup db eid link = some f →
      ∀ o created db2 n2,
        upsert_order_from_rss db nextId eid link title summary pd raw now
          = (o, created, db2, n2) →
        created = false ∧ o.title = title ∧ o.summary = summary ∧
          o.pub_date = ensure_utc pd ∧ o.rss_raw = raw ∧
          o.external_id = (if eid ≠ none ∧ f.external_id = none then eid
            else f.external_id) ∧
          o.id = f.id ∧ db2 = db.map (fun x => if x.id = f.id then o else x) ∧
          n2 = nextId) ∧
    (∀ (parsedate : String → Option PyDateTime) (now1 now2 : PyDateTime)
        (l t1 t2 : String) (s1 d1 p1 q1 s2 d2 p2 q2 : Option String)
        (rw1 rw2 : List (String × String)),
      l ≠ "" → t1 ≠ "" → t2 ≠ "" →
      ∀ i1 u1 db1 n1,
        ingestEntries parsedate now1 [⟨some l, t1, s1, d1, p1, q1, rw1⟩] [] 1 0 0
          = (i1, u1, db1, n1) →
      ∀ i2 u2 db2 nn2,
        ingestEntries parsedate now2 [⟨some l, t2, s2, d2, p2, q2, rw2⟩] db1 n1 0 0
          = (i2, u2, db2, nn2) →
      i1 = 1 ∧ u1 = 0 ∧ i2 = 0 ∧ u2 = 1 ∧ ∃ o, db2 = [o] ∧ o.title = t2) := by
  refine ⟨?_, ?_, ?_⟩
  · intro h o created db2 n2 hu
    simp only [upsert_order_from_rss, h] at hu
    simp only [Prod.mk.injEq] at hu
    obtain ⟨ho, hc, hdb, hn⟩ := hu
    subst ho
    subst hc
    subst hdb
    subst hn
    exact ⟨rfl, rfl, rfl, rfl, rfl, rfl, rfl, rfl, rfl, rfl⟩
  · intro f hf o created db2 n2 hu
    simp only [upsert_order_from_rss, hf] at hu
    simp only [Prod.mk.injEq] at hu
    obtain ⟨ho, hc, hdb, hn⟩ := hu
    subst ho
    subst hc
    subst hdb
    subst hn
    exact ⟨rfl, rfl, rfl, rfl, rfl, rfl, rfl, rfl, rfl⟩
  · intro parsedate now1 now2 l t1 t2 s1 d1 p1 q1 s2 d2 p2 q2 rw1 rw2
      hlne ht1 ht2 i1 u1 db1 n1 h1 i2 u2 db2 nn2 h2
    exact ingest_twice_aux parsedate now1 now2 l t1 t2 s1 d1 p1 q1 s2 d2 p2 q2
      rw1 rw2 hlne ht1 ht2 i1 u1 db1 n1 h1 i2 u2 db2 nn2 h2

/-- Feed link used by the C5 witness. -/
def ingestExampleLink : String := "https://www.fl.ru/projects/123456/test.html"

/-- Order stored after the first ingest of the C5 witness scenario. -/
def ingestExampleRow1 : OrderRow :=
  { id := 1, external_id := some 123456, link := ingestExampleLink,
    title := "Old title", summary := none, pub_date := none, rss_raw := [],
    enriched_json := .nil, created_at := { wall := 0, tz := some 0 },
    updated_at := { wall := 0, tz := some 0 } }

/-- Order stored after the second ingest of the C5 witness scenario. -/
def ingestExampleRow2 : OrderRow :=
  { id := 1, external_id := some 123456, link := ingestExampleLink,
    title := "New title", summary := none, pub_date := none, rss_raw := [],
    enriched_json := .nil, created_at := { wall := 0, tz := some 0 },
    updated_at := { wall := 1, tz := some 0 } }

/-- Witness for C5: the `/projects/123456/` entry ingested twice with a
changed title. -/
theorem upsert_from_feed_char_witness :
    (ingestEntries (fun _ => none) { wall := 0, tz := some 0 }
        [⟨some ingestExampleLink, "Old title", none, none, none, none, []⟩] [] 1 0 0
      = (1, 0, [ingestExampleRow1], 2)) ∧
    (ingestEntries (fun _ => none) { wall := 1, tz := some 0 }
        [⟨some ingestExampleLink, "New title", none, none, none, none, []⟩]
        [ingestExampleRow1] 2 0 0
      = (0, 1, [ingestExampleRow2], 2)) ∧
    ((1 : Nat) = 1 ∧ (0 : Nat) = 0 ∧ (0 : Nat) = 0 ∧ (1 : Nat) = 1 ∧
      ∃ o, [ingestExampleRow2] = [o] ∧ o.title = "New title") :=
  ⟨by decide, by decide,
   (upsert_from_feed_char [] 1 none "" "" none none []
        { wall := 0, tz := some 0 }).2.2
     (fun _ => none) { wall := 0, tz := some 0 } { wall := 1, tz := some 0 }
     ingestExampleLink "Old title" "New title" none none none none none none
     none none [] []
     (by decide) (by decide) (by decide)
     1 0 [ingestExampleRow1] 2 (by decide)
     0 1 [ingestExampleRow2] 2 (by decide)⟩

/-! ## Feed URL resolution (C4) -/

/-- The configuration fields used by the feed URL builder
(app/config.py lines 13-15, with their defaults). -/
structure Settings where
  rss_feed_url : String
  rss_category : Option Int
  rss_subcategory : Option Int
deriving DecidableEq, Repr

/-- `Settings()` defaults (app/config.py). -/
def defaultSettings : Settings :=
  { rss_feed_url := "https://www.fl.ru/rss/all.xml", rss_category := none,
    rss_subcategory := none }

/-- `RSSIngestOptions` (app/config.py lines 47-51). -/
structure RSSIngestOptions where
  feed_url : Option String
  category : Option Int
  subcategory : Option Int
  limit : Option Nat
deriving DecidableEq, Repr

/-- Split at the first occurrence of a character. -/
def splitOnFirstChar : List Char → Char → List Char × Option (List Char)
  | [], _ => ([], none)
  | d :: rest, c =>
    if d = c then ([], some rest)
    else
      match splitOnFirstChar rest c with
      | (pre2, post) => (d :: pre2, post)

/-- Split at the first `://`. -/
def splitSchemeSep : List Char → Option (List Char × List Char)
  | ':' :: '/' :: '/' :: rest => some ([], rest)
  | [] => none
  | c :: rest => (splitSchemeSep rest).map (fun p => (c :: p.1, p.2))

/-- The parsed-URL components used by `build_feed_url` (`params` is unused by
the service's URLs and folded into `path`). -/
structure ParsedUrl where
  scheme : String
  netloc : String
  path : String
  query : String
  fragment : String
deriving DecidableEq, Repr

/-- `urllib.parse.urlparse` for the absolute `http(s)` URLs this service
handles. -/
def urlparse (s : String) : ParsedUrl :=
  let (beforeFrag, frag) := splitOnFirstChar s.data '#'
  let (beforeQuery, query) := splitOnFirstChar beforeFrag '?'
  match splitSchemeSep beforeQuery with
  | some (scheme, rest) =>
    let (netloc, pathRest) := splitOnFirstChar rest '/'
    { scheme := ⟨scheme⟩, netloc := ⟨netloc⟩,
      path := (match pathRest with
        | some p => ⟨'/' :: p⟩
        | none => ""),
      query := ⟨(query.getD [])⟩, fragment := ⟨(frag.getD [])⟩ }
  | none =>
    { scheme := "", netloc := "", path := ⟨beforeQuery⟩,
      query := ⟨(query.getD [])⟩, fragment := ⟨(frag.getD [])⟩ }

/-- `urllib.parse.urlunparse` (no params). -/
def urlunparse (u : ParsedUrl) : String :=
  u.scheme ++ (if u.scheme = "" then "" else "://") ++ u.netloc ++ u.path
    ++ (if u.query = "" then "" else "?" ++ u.query)
    ++ (if u.fragment = "" then "" else "#" ++ u.fragment)

/-- Split a character list on a separator character into pieces. -/
def splitAllOn : List Char → Char → List (List Char)
  | [], _ => [[]]
  | d :: rest, c =>
    if d = c then [] :: splitAllOn rest c
    else
      match splitAllOn rest c with
      | [] => [[d]]
      | piece :: pieces => (d :: piece) :: pieces

/-- `urllib.parse.parse_qsl(query, keep_blank_values=True)` for unescaped
queries: split on `&`, each piece on the first `=` (a piece without `=`
keeps a blank value; an empty piece is dropped). -/
def parse_qsl (query : String) : List (String × String) :=
  (splitAllOn query.data '&').filterMap (fun piece =>
    if piece = [] then none
    else
      match splitOnFirstChar piece '=' with
      | (name, some value) => some (⟨name⟩, ⟨value⟩)
      | (name, none) => some (⟨name⟩, ""))

/-- Python dict assignment on an ordered association list. -/
def strDictSet : List (String × String) → String → String → List (String × String)
  | [], k, v => [(k, v)]
  | (k2, v2) :: rest, k, v =>
    if k2 = k then (k, v) :: rest else (k2, v2) :: strDictSet rest k v

/-- `dict(pairs)`: later pairs win, first-insertion order kept. -/
def strDictOfList (ps : List (String × String)) : List (String × String) :=
  ps.foldl (fun d p => strDictSet d p.1 p.2) []

/-- `urllib.parse.urlencode` for values needing no escaping. -/
def urlencode (ps : List (String × String)) : String :=
  String.intercalate "&" (ps.map (fun p => p.1 ++ "=" ++ p.2))

/-- `build_feed_url` (app/rss.py lines 18-34): take the override feed URL or
the configured one, resolve category/subcategory (request override wins over
settings), merge them into the URL's query string and re-serialise. -/
def build_feed_url (settings : Settings) (options : RSSIngestOptions) : String :=
  let base_url := (pyOrStr options.feed_url (some settings.rss_feed_url)).getD ""
  let category := match options.category with
    | some c => some c
    | none => settings.rss_category
  let subcategory := match options.subcategory with
    | some c => some c
    | none => settings.rss_subcategory
  let query_params : List (String × String) :=
    (match category with
      | some c => [("category", toString c)]
      | none => []) ++
    (match subcategory with
      | some c => [("subcategory", toString c)]
      | none => [])
  let parsed := urlparse base_url
  let existing := strDictOfList (parse_qsl parsed.query)
  let merged := query_params.foldl (fun d p => strDictSet d p.1 p.2) existing
  let query := urlencode merged
  urlunparse { parsed with query := query }

/-- `ingest_rss` (app/rss.py lines 37-44) resolves `feed_url =
build_feed_url(options)` but then calls
`feedparser.parse('https://www.fl.ru/rss/all.xml')`: the pair of (resolved
URL, actually fetched URL). -/
def ingest_rss_urls (settings : Settings) (options : RSSIngestOptions) :
    String × String :=
  (build_feed_url settings options, "https://www.fl.ru/rss/all.xml")

/-- C4: the ingest operation is claimed to fetch the URL produced by the
feed-URL builder, but `ingest_rss` passes the hard-coded literal
`https://www.fl.ru/rss/all.xml` to the feed parser for every request: the
fetched URL is constant, and for a request overriding the feed URL it differs
from the resolved URL. -/
theorem ingest_rss_fetches_hardcoded_url :
    (∀ (settings : Settings) (options : RSSIngestOptions),
      (ingest_rss_urls settings options).2 = "https://www.fl.ru/rss/all.xml") ∧
    (ingest_rss_urls defaultSettings
        { feed_url := some "https://example.com/feed", category := none,
          subcategory := none, limit := none }).1 = "https://example.com/feed" ∧
    (ingest_rss_urls defaultSettings
        { feed_url := some "https://example.com/feed", category := none,
          subcategory := none, limit := none }).2
      ≠ (ingest_rss_urls defaultSettings
        { feed_url := some "https://example.com/feed", category := none,
          subcategory := none, limit := none }).1 :=
  ⟨fun _ _ => rfl, by decide, by decide⟩
